import Mathlib

/-!
# Verification of the conter container-deployment control plane

Shallow embedding of the reconciliation, ingress and certificate subsystem
of the `conter` repository, with theorems settling the frozen claims about
its specification.  Persistent-store buckets are modelled as association
lists (keyed by string, overwrite on put, as bbolt buckets behave), machine
integers as `Int`/`Nat`, and effectful runtime calls as explicit state
passing.
-/

set_option autoImplicit false

namespace Conter

/-! ## Bucket primitives

A bbolt bucket is a key/value map; `Put` overwrites, `Get` returns the
value or nothing, `Delete` removes the key.  We model a bucket as an
association list in insertion order. -/

/-- `bput b k v`: bbolt `bucket.Put(k, v)` — overwrite the entry for `k`
or append a fresh one. -/
def bput {α : Type} (b : List (String × α)) (k : String) (v : α) :
    List (String × α) :=
  match b with
  | [] => [(k, v)]
  | (k', v') :: rest =>
      if k' = k then (k, v) :: rest else (k', v') :: bput rest k v

/-- `bget b k`: bbolt `bucket.Get(k)` — the stored value, if any. -/
def bget {α : Type} (b : List (String × α)) (k : String) : Option α :=
  match b with
  | [] => none
  | (k', v') :: rest => if k' = k then some v' else bget rest k

/-- `bdel b k`: bbolt `bucket.Delete(k)` — drop the entry for `k`. -/
def bdel {α : Type} (b : List (String × α)) (k : String) :
    List (String × α) :=
  match b with
  | [] => []
  | (k', v') :: rest =>
      if k' = k then bdel rest k else (k', v') :: bdel rest k

theorem bget_bput {α : Type} (b : List (String × α)) (k : String) (v : α) :
    bget (bput b k v) k = some v := by
  induction b with
  | nil => simp [bput, bget]
  | cons hd tl ih =>
      obtain ⟨k', v'⟩ := hd
      by_cases h : k' = k <;> simp [bput, bget, h, ih]

theorem bget_bput_ne {α : Type} (b : List (String × α)) (k k' : String)
    (v : α) (h : k ≠ k') : bget (bput b k v) k' = bget b k' := by
  induction b with
  | nil => simp [bput, bget, h]
  | cons hd tl ih =>
      obtain ⟨k₀, v₀⟩ := hd
      by_cases h₀ : k₀ = k
      · subst h₀; simp [bput, bget, h]
      · simp [bput, h₀]
        by_cases h₁ : k₀ = k' <;> simp [bget, h₁, ih]

/-- Overwriting a key with the value it already stores leaves the bucket
unchanged. -/
theorem bput_same {α : Type} (b : List (String × α)) (k : String) (v : α)
    (h : bget b k = some v) : bput b k v = b := by
  induction b with
  | nil => simp [bget] at h
  | cons hd tl ih =>
      obtain ⟨k', v'⟩ := hd
      by_cases hk : k' = k
      · subst hk
        simp [bget] at h
        simp [bput, h]
      · simp [bget, hk] at h
        simp [bput, hk, ih h]

/-! ## MD5 (crypto/md5)

`types.CalculateHash` fingerprints a service with `md5.New()` over a JSON
buffer and renders the sum with `%x`.  RFC 1321, bytes as `Nat`, words as
`Nat` truncated to 32 bits. -/

namespace MD5

/-- 32-bit truncation. -/
def w32 (x : Nat) : Nat := x % 4294967296

/-- Bitwise complement within 32 bits. -/
def not32 (x : Nat) : Nat := Nat.xor x 4294967295

/-- Left-rotation of a 32-bit word. -/
def rotl (x s : Nat) : Nat :=
  w32 (Nat.lor (w32 (Nat.shiftLeft x s)) (Nat.shiftRight x (32 - s)))

/-- Per-round sine-derived constants of RFC 1321. -/
def K : List Nat :=
  [0xd76aa478, 0xe8c7b756, 0x242070db, 0xc1bdceee,
   0xf57c0faf, 0x4787c62a, 0xa8304613, 0xfd469501,
   0x698098d8, 0x8b44f7af, 0xffff5bb1, 0x895cd7be,
   0x6b901122, 0xfd987193, 0xa679438e, 0x49b40821,
   0xf61e2562, 0xc040b340, 0x265e5a51, 0xe9b6c7aa,
   0xd62f105d, 0x02441453, 0xd8a1e681, 0xe7d3fbc8,
   0x21e1cde6, 0xc33707d6, 0xf4d50d87, 0x455a14ed,
   0xa9e3e905, 0xfcefa3f8, 0x676f02d9, 0x8d2a4c8a,
   0xfffa3942, 0x8771f681, 0x6d9d6122, 0xfde5380c,
   0xa4beea44, 0x4bdecfa9, 0xf6bb4b60, 0xbebfbc70,
   0x289b7ec6, 0xeaa127fa, 0xd4ef3085, 0x04881d05,
   0xd9d4d039, 0xe6db99e5, 0x1fa27cf8, 0xc4ac5665,
   0xf4292244, 0x432aff97, 0xab9423a7, 0xfc93a039,
   0x655b59c3, 0x8f0ccc92, 0xffeff47d, 0x85845dd1,
   0x6fa87e4f, 0xfe2ce6e0, 0xa3014314, 0x4e0811a1,
   0xf7537e82, 0xbd3af235, 0x2ad7d2bb, 0xeb86d391]

/-- Per-round shift amounts of RFC 1321. -/
def S : List Nat :=
  [7, 12, 17, 22, 7, 12, 17, 22, 7, 12, 17, 22, 7, 12, 17, 22,
   5, 9, 14, 20, 5, 9, 14, 20, 5, 9, 14, 20, 5, 9, 14, 20,
   4, 11, 16, 23, 4, 11, 16, 23, 4, 11, 16, 23, 4, 11, 16, 23,
   6, 10, 15, 21, 6, 10, 15, 21, 6, 10, 15, 21, 6, 10, 15, 21]

/-- `n` little-endian bytes of `x`. -/
def leBytes : Nat → Nat → List Nat
  | 0, _ => []
  | n + 1, x => (x % 256) :: leBytes n (x / 256)

/-- A 32-bit word from four little-endian bytes. -/
def leWord (bs : List Nat) : Nat :=
  match bs with
  | b0 :: b1 :: b2 :: b3 :: _ => b0 + 256 * b1 + 65536 * b2 + 16777216 * b3
  | _ => 0

/-- The 16 message words of a 64-byte block. -/
def blockWords (bs : List Nat) : List Nat :=
  (List.range 16).map (fun i => leWord (bs.drop (4 * i)))

/-- RFC 1321 padding: a 0x80 byte, zeros to 56 mod 64, then the bit length
as eight little-endian bytes. -/
def pad (msg : List Nat) : List Nat :=
  msg ++ 0x80 :: List.replicate ((119 - msg.length % 64) % 64) 0
      ++ leBytes 8 (8 * msg.length)

/-- One of the 64 rounds: `i` is the round index, `m` the block's words. -/
def round (m : List Nat) (i : Nat) (st : Nat × Nat × Nat × Nat) :
    Nat × Nat × Nat × Nat :=
  let (a, b, c, d) := st
  let f :=
    if i < 16 then Nat.lor (Nat.land b c) (Nat.land (not32 b) d)
    else if i < 32 then Nat.lor (Nat.land d b) (Nat.land (not32 d) c)
    else if i < 48 then Nat.xor b (Nat.xor c d)
    else Nat.xor c (Nat.lor b (not32 d))
  let g :=
    if i < 16 then i
    else if i < 32 then (5 * i + 1) % 16
    else if i < 48 then (3 * i + 5) % 16
    else (7 * i) % 16
  let t := w32 (f + a + K.getD i 0 + m.getD g 0)
  (d, w32 (b + rotl t (S.getD i 0)), b, c)

/-- The last `n` of the 64 rounds. -/
def rounds (m : List Nat) : Nat → Nat × Nat × Nat × Nat →
    Nat × Nat × Nat × Nat
  | 0, st => st
  | n + 1, st => rounds m n (round m (64 - (n + 1)) st)

/-- Process one 64-byte block into the running state. -/
def block (st : Nat × Nat × Nat × Nat) (bs : List Nat) :
    Nat × Nat × Nat × Nat :=
  let (a0, b0, c0, d0) := st
  let (a, b, c, d) := rounds (blockWords bs) 64 (a0, b0, c0, d0)
  (w32 (a0 + a), w32 (b0 + b), w32 (c0 + c), w32 (d0 + d))

/-- Fold over the 64-byte blocks; the fuel bounds the number of blocks. -/
def blocksGo : Nat → (Nat × Nat × Nat × Nat) → List Nat →
    Nat × Nat × Nat × Nat
  | 0, st, _ => st
  | _, st, [] => st
  | n + 1, st, bs => blocksGo n (block st bs) (bs.drop 64)

/-- Fold over the 64-byte blocks of a padded message. -/
def blocks (st : Nat × Nat × Nat × Nat) (bs : List Nat) :
    Nat × Nat × Nat × Nat :=
  blocksGo bs.length st bs

/-- One hex digit, lowercase. -/
def hexDigit (n : Nat) : Char :=
  if n < 10 then Char.ofNat (48 + n) else Char.ofNat (87 + n)

/-- A byte as two lowercase hex digits. -/
def byteHex (b : Nat) : List Char := [hexDigit (b / 16), hexDigit (b % 16)]

/-- The digest: the four state words as little-endian bytes, in hex. -/
def digestHex (st : Nat × Nat × Nat × Nat) : String :=
  let (a, b, c, d) := st
  let bs := leBytes 4 a ++ leBytes 4 b ++ leBytes 4 c ++ leBytes 4 d
  String.mk (bs.flatMap byteHex)

/-- MD5 of a byte sequence, as a lowercase hex string. -/
def md5Bytes (msg : List Nat) : String :=
  digestHex (blocks (0x67452301, 0xefcdab89, 0x98badcfe, 0x10325476)
    (pad msg))

/-- UTF-8 bytes of a code point. -/
def utf8Char (c : Nat) : List Nat :=
  if c < 0x80 then [c]
  else if c < 0x800 then [0xc0 + c / 64, 0x80 + c % 64]
  else if c < 0x10000 then
    [0xe0 + c / 4096, 0x80 + c / 64 % 64, 0x80 + c % 64]
  else
    [0xf0 + c / 262144, 0x80 + c / 4096 % 64, 0x80 + c / 64 % 64,
     0x80 + c % 64]

/-- UTF-8 bytes of a string. -/
def utf8 (s : String) : List Nat :=
  s.data.flatMap (fun c => utf8Char c.toNat)

/-- MD5 of a string's UTF-8 bytes, as `md5.Sum` plus `%x` renders it in Go. -/
def md5Hex (s : String) : String := md5Bytes (utf8 s)

end MD5

set_option maxRecDepth 100000

/-- Sanity anchor: the RFC 1321 test vector for the MD5 embedding. -/
theorem md5Hex_abc :
    MD5.md5Hex "abc" = "900150983cd24fb0d6963f7d28e17f72" := by decide

/-! ## encoding/json, for the values `CalculateHash` feeds to the hash

Go's `json.NewEncoder(&buf).Encode(v)` writes the JSON encoding of `v`
followed by a newline, escaping HTML characters.  Maps encode with their
keys sorted; a nil map encodes as `null` (we model the maps of a service as
association lists, taking the empty list as Go's nil map, the only form the
reconciler's request decoding produces for an absent map). -/

namespace Jsonenc

/-- The escape of one character inside a JSON string, as
`encoding/json` with HTML escaping writes it. -/
def escapeChar (c : Char) : List Char :=
  if c = '"' then ['\\', '"']
  else if c = '\\' then ['\\', '\\']
  else if c = '\n' then ['\\', 'n']
  else if c = '\r' then ['\\', 'r']
  else if c = '\t' then ['\\', 't']
  else if c.toNat < 0x20 then
    ['\\', 'u', '0', '0', MD5.hexDigit (c.toNat / 16),
     MD5.hexDigit (c.toNat % 16)]
  else if c = '<' then ['\\', 'u', '0', '0', '3', 'c']
  else if c = '>' then ['\\', 'u', '0', '0', '3', 'e']
  else if c = '&' then ['\\', 'u', '0', '0', '2', '6']
  else if c.toNat = 0x2028 then ['\\', 'u', '2', '0', '2', '8']
  else if c.toNat = 0x2029 then ['\\', 'u', '2', '0', '2', '9']
  else [c]

/-- A JSON string literal. -/
def encString (s : String) : String :=
  "\"" ++ String.mk (s.data.flatMap escapeChar) ++ "\""

/-- A JSON integer. -/
def encInt (i : Int) : String := toString i

/-- Lexicographic order on code points; on UTF-8 strings this is exactly
the byte-wise order `sort.Strings` uses. -/
def charsLt : List Char → List Char → Bool
  | [], [] => false
  | [], _ :: _ => true
  | _ :: _, [] => false
  | a :: as, b :: bs =>
      if a.toNat < b.toNat then true
      else if b.toNat < a.toNat then false
      else charsLt as bs

/-- Byte-wise string order, as Go compares strings. -/
def strLt (a b : String) : Bool := charsLt a.data b.data

/-- Insertion into a key-sorted list, byte-wise as `sort.Strings`. -/
def insertSorted (p : String × String) :
    List (String × String) → List (String × String)
  | [] => [p]
  | q :: rest =>
      if strLt p.1 q.1 then p :: q :: rest else q :: insertSorted p rest

/-- A map's entries with keys sorted, as Go marshals a `map[string]string`. -/
def sortByKey (m : List (String × String)) : List (String × String) :=
  m.foldr insertSorted []

/-- A `map[string]string`: `null` for Go's nil map, else a sorted object. -/
def encStringMap (m : List (String × String)) : String :=
  match m with
  | [] => "null"
  | _ =>
      "\x7b" ++ String.intercalate ","
        ((sortByKey m).map (fun p => encString p.1 ++ ":" ++ encString p.2))
        ++ "\x7d"

end Jsonenc

/-! ## manager/types: the service data model (multi-domain revision)

`Source`, `Quota`, `Volume`, `Ingress` and `Service` as
src/manager/types/service.go and src/manager/types/ingress.go declare
them.  `ChallengeType` is a string type with four constants. -/

/-- types.ChallengeType constants. -/
def ChallengeTypeHTTP : String := "HTTP-01"

def ChallengeTypeDNS : String := "DNS-01"

def ChallengeTypeTLS : String := "TLS-ALPN-01"

def ChallengeTypeNone : String := "NONE"

/-- types.Source: where a service's image comes from. -/
structure Source where
  type : String
  uri : String
  opts : List (String × String)
  deriving DecidableEq, Repr

/-- types.Quota: the memory ceiling in decimal megabytes (int64). -/
structure Quota where
  memoryLimit : Int
  deriving DecidableEq, Repr

/-- types.Volume: a logical volume name and its mount path. -/
structure Volume where
  name : String
  path : String
  deriving DecidableEq, Repr

/-- types.Ingress (multi-domain revision of src/manager/types/ingress.go). -/
structure Ingress where
  domains : List String
  containerPort : Int
  targetEndpoint : String
  targetService : String
  targetProject : String
  challengeType : String
  deriving DecidableEq, Repr

/-- types.Service of src/manager/types/service.go. -/
structure Service where
  name : String
  hash : String
  containerName : String
  containerImage : String
  source : Source
  environment : List (String × String)
  quota : Quota
  ingress : Ingress
  volumes : List Volume
  deriving DecidableEq, Repr

/-- The JSON encoding of a `types.Source` value. -/
def encSource (s : Source) : String :=
  "\x7b\"type\":" ++ Jsonenc.encString s.type ++ ",\"uri\":"
    ++ Jsonenc.encString s.uri ++ ",\"opts\":"
    ++ Jsonenc.encStringMap s.opts ++ "\x7d"

/-- The JSON encoding of a `types.Quota` value. -/
def encQuota (q : Quota) : String :=
  "\x7b\"memory_limit\":" ++ Jsonenc.encInt q.memoryLimit ++ "\x7d"

/-- The JSON encoding of a `[]types.Volume` value. -/
def encVolumes (vs : List Volume) : String :=
  "[" ++ String.intercalate ","
    (vs.map (fun v => "\x7b\"name\":" ++ Jsonenc.encString v.name
      ++ ",\"path\":" ++ Jsonenc.encString v.path ++ "\x7d")) ++ "]"

/-- The byte buffer `types.CalculateHash` accumulates: the JSON encodings
(each `Encode` call appends a newline) of the source, the environment, the
container port, the quota, and — only when non-empty — the volumes.  The
service name, container name, image, stored hash, and the rest of the
ingress record are deliberately not written. -/
def configHashInput (s : Service) : String :=
  encSource s.source ++ "\n"
    ++ Jsonenc.encStringMap s.environment ++ "\n"
    ++ Jsonenc.encInt s.ingress.containerPort ++ "\n"
    ++ encQuota s.quota ++ "\n"
    ++ (if s.volumes.isEmpty then "" else encVolumes s.volumes ++ "\n")

/-- types.CalculateHash: the configuration fingerprint of a service. -/
def CalculateHash (s : Service) : String :=
  MD5.md5Hex (configHashInput s)

/-- The `base` service of TestService_CalculateConfigurationHash. -/
def baseService : Service :=
  { name := "base", hash := "", containerName := "", containerImage := ""
    source := { type := "docker", uri := "nginx:latest", opts := [] }
    environment := [("HTTP_PORT", "80"), ("ANOTHER", "default-value")]
    quota := { memoryLimit := 0 }
    ingress := { domains := [], containerPort := 0, targetEndpoint := ""
                 targetService := "", targetProject := "", challengeType := "" }
    volumes := [] }

/-- Sanity anchor: the fingerprint of the Go test's `base` service, computed
end to end through the JSON buffer and MD5. -/
theorem calculateHash_baseService :
    CalculateHash baseService = "4edb0f7c6fa474ccb0b82c228c1b4e4b" := by
  decide

/-- C5.  The configuration hash reads only the source, the environment, the
container port, the quota and the volumes of a service: two services that
agree on those five components hash identically, whatever their names (and
whatever their container names, images, stored hashes, domains, endpoints,
target service/project or challenge types). -/
theorem calculateHash_ignores_name (s₁ s₂ : Service)
    (hsrc : s₁.source = s₂.source)
    (henv : s₁.environment = s₂.environment)
    (hport : s₁.ingress.containerPort = s₂.ingress.containerPort)
    (hquota : s₁.quota = s₂.quota)
    (hvol : s₁.volumes = s₂.volumes) :
    CalculateHash s₁ = CalculateHash s₂ := by
  simp only [CalculateHash, configHashInput, hsrc, henv, hport, hquota, hvol]

/-- C5 witness: the Go test's `base` versus `another` pair — every hash
input equal, the names different, the hashes equal. -/
theorem calculateHash_ignores_name_witness :
    baseService.name ≠ (Service.mk "another" "" "" "" baseService.source
        baseService.environment baseService.quota baseService.ingress
        baseService.volumes).name ∧
      CalculateHash baseService = CalculateHash (Service.mk "another" "" "" ""
        baseService.source baseService.environment baseService.quota
        baseService.ingress baseService.volumes) :=
  ⟨by decide,
   calculateHash_ignores_name _ _ rfl rfl rfl rfl rfl⟩

/-! ## manager/db: the challenges bucket

The bucket may be absent (never created): bbolt then returns nil from
`tx.Bucket`, which the client maps to "no action required" on removal and
to `NotFound` on reads.  `none` models the absent bucket.  Stored values
are well-typed challenge records, so the JSON unmarshal of a stored value
— the one error path of `RemoveAcmeChallenge` — cannot fail and the
operations are total. -/

/-- types.AcmeChallenge: the token and key authorization for a domain. -/
structure AcmeChallenge where
  token : String
  auth : String
  deriving DecidableEq, Repr

/-- The challenges bucket; `none` when the bucket was never created. -/
abbrev ChallengeStore := Option (List (String × AcmeChallenge))

/-- db.Client.GetDomainChallenge: the stored challenge, or nothing when
the bucket or the key is missing. -/
def GetDomainChallenge (st : ChallengeStore) (domain : String) :
    Option AcmeChallenge :=
  match st with
  | none => none
  | some b => bget b domain

/-- db.Client.SetAcmeChallenge: store the challenge record, creating the
bucket if needed. -/
def SetAcmeChallenge (st : ChallengeStore) (domain token auth : String) :
    ChallengeStore :=
  some (bput (st.getD []) domain ⟨token, auth⟩)

/-- db.Client.RemoveAcmeChallenge: delete the record for `domain` only when
the stored token and auth both match; otherwise (and when the bucket or the
record is missing) no action is required. -/
def RemoveAcmeChallenge (st : ChallengeStore) (domain token auth : String) :
    ChallengeStore :=
  match st with
  | none => none
  | some b =>
      match bget b domain with
      | none => some b
      | some challenge =>
          if challenge.token = token ∧ challenge.auth = auth then
            some (bdel b domain)
          else
            some b

/-- The bucket with the record for `domain` deleted (bbolt
`bucket.Delete`), untouched when the bucket is absent. -/
def eraseChallenge (st : ChallengeStore) (domain : String) : ChallengeStore :=
  match st with
  | none => none
  | some b => some (bdel b domain)

/-! ## manager/certificates.go (multi-domain revision) -/

/-- CertificateManager.Present: the ACME HTTP-01 provider stores the
challenge for the domain. -/
def Present (st : ChallengeStore) (domain token auth : String) :
    ChallengeStore :=
  SetAcmeChallenge st domain token auth

/-- CertificateManager.CleanUp delegates to the conditional
`RemoveAcmeChallenge`. -/
def CleanUp (st : ChallengeStore) (domain token auth : String) :
    ChallengeStore :=
  RemoveAcmeChallenge st domain token auth

/-- CertificateManager.Authorize: the key authorization for the domain,
or an error when no challenge is stored or the token differs. -/
def Authorize (st : ChallengeStore) (domain token : String) :
    Except String String :=
  match GetDomainChallenge st domain with
  | none => .error "no challenge available"
  | some challenge =>
      if challenge.token ≠ token then .error "invalid token"
      else .ok challenge.auth

/-- CertificateManager.ChallengeCreate of the multi-domain revision of
manager/certificates.go.  `acmeConfigured` is whether `c.acme` is non-nil
(an ACME account was configured at start-up).  The result is the returned
error or, on success, the domain list handed to the asynchronous obtain
goroutine — `none` when no goroutine is scheduled. -/
def ChallengeCreate (acmeConfigured : Bool) (st : ChallengeStore)
    (domains : List String) (challenge : String) :
    Except String (Option (List String)) :=
  if ¬acmeConfigured then .error "ACME email is not configured"
  else if challenge = ChallengeTypeNone then .ok none
  else if challenge ≠ ChallengeTypeHTTP then
    .error "challenge type not supported"
  else
    let req := domains.filter (fun d => (GetDomainChallenge st d).isNone)
    if req.isEmpty then .ok none
    else .ok (some req)

/-- C3.  `RemoveAcmeChallenge(d, t, a)` deletes the stored record exactly
when the stored `(token, auth)` pair equals `(t, a)`; in every other case —
mismatching record, no record, or no challenge bucket at all — the store
comes back unchanged (and the operation reports success: its only Go error
path, a failed unmarshal of a stored record, cannot arise for the typed
records the store holds). -/
theorem removeAcmeChallenge_conditional (st : ChallengeStore)
    (d t a : String) :
    RemoveAcmeChallenge st d t a =
      if (GetDomainChallenge st d).any
          (fun c => c.token = t ∧ c.auth = a) then
        eraseChallenge st d
      else st := by
  match st with
  | none => simp [RemoveAcmeChallenge, GetDomainChallenge, eraseChallenge]
  | some b =>
      simp only [RemoveAcmeChallenge, GetDomainChallenge, eraseChallenge]
      match h : bget b d with
      | none => simp [Option.any]
      | some c =>
          simp only [Option.any]
          by_cases hc : c.token = t ∧ c.auth = a <;> simp [hc]

/-! ## proxy: the ACME challenge handler (both in-repo revisions)

An HTTP request is modelled by the two fields the handler reads; a
response by its status code and body. -/

/-- The request fields `HandleAcmeChallenge` reads. -/
structure HttpRequest where
  path : String
  host : String
  deriving DecidableEq, Repr

/-- A reply: status code and body. -/
structure HttpResponse where
  status : Nat
  body : String
  deriving DecidableEq, Repr

/-- proxy.AcmePrefix. -/
def AcmePrefix : String := "/.well-known/acme-challenge/"

/-- Characterwise prefix test; on UTF-8 data this is Go's
`strings.HasPrefix`. -/
def charsStarts : List Char → List Char → Bool
  | _, [] => true
  | [], _ :: _ => false
  | a :: as, b :: bs => a = b && charsStarts as bs

/-- Go `strings.HasPrefix`. -/
def HasPrefixGo (s pre : String) : Bool := charsStarts s.data pre.data

/-- Go `strings.TrimPrefix`. -/
def TrimPrefixGo (s pre : String) : String :=
  if HasPrefixGo s pre then String.mk (s.data.drop pre.data.length) else s

/-- proxy.Server.IsAcmeChallenge. -/
def IsAcmeChallenge (r : HttpRequest) : Bool := HasPrefixGo r.path AcmePrefix

/-- The characters before the first `sep`, or nothing when `sep` does not
occur (Go `strings.Index` returning -1). -/
def charsUpTo (sep : Char) : List Char → Option (List Char)
  | [] => none
  | c :: cs =>
      if c = sep then some [] else (charsUpTo sep cs).map (fun l => c :: l)

/-- proxy.ExtractDomain (src/proxy/util.go): the host with any port
suffix dropped. -/
def ExtractDomain (host : String) : String :=
  match charsUpTo ':' host.data with
  | some before => String.mk before
  | none => host

/-- proxy.Server.HandleAcmeChallenge, the revision of src/unnamed/part_015:
reply 200 with the key authorization, or 404 when `Authorize` fails. -/
def HandleAcmeChallenge (st : ChallengeStore) (r : HttpRequest) :
    HttpResponse :=
  let token := TrimPrefixGo r.path AcmePrefix
  let host := ExtractDomain r.host
  match Authorize st host token with
  | .error _ => { status := 404, body := "" }
  | .ok auth => { status := 200, body := auth }

namespace ProxyV0

/-- The inline port strip of the src/proxy/challenge.go revision
(`strings.Index(host, ":")` and a slice). -/
def stripPort (host : String) : String :=
  match charsUpTo ':' host.data with
  | some before => String.mk before
  | none => host

/-- proxy.Server.HandleAcmeChallenge, the revision of
src/proxy/challenge.go: the port is stripped inline, and a failed
`Authorize` answers 400 Bad Request instead of 404. -/
def HandleAcmeChallenge (st : ChallengeStore) (r : HttpRequest) :
    HttpResponse :=
  let token := TrimPrefixGo r.path AcmePrefix
  let host := stripPort r.host
  match Authorize st host token with
  | .error _ => { status := 400, body := "" }
  | .ok auth => { status := 200, body := auth }

/-- The inline strip computes exactly `ExtractDomain`. -/
theorem stripPort_eq (h : String) : stripPort h = ExtractDomain h := by
  cases hup : charsUpTo ':' h.data <;>
    simp [stripPort, ExtractDomain, hup]

end ProxyV0

/-- C4 counterexample.  A challenge request whose host has no stored
challenge: the claim says the proxy replies 404, but the
src/proxy/challenge.go revision of the handler replies 400 Bad Request. -/
theorem handleAcmeChallenge_claim_cex :
    IsAcmeChallenge ⟨"/.well-known/acme-challenge/tok", "www.example.com"⟩
        = true ∧
    GetDomainChallenge (some []) "www.example.com" = none ∧
    (ProxyV0.HandleAcmeChallenge (some [])
        ⟨"/.well-known/acme-challenge/tok", "www.example.com"⟩).status
        = 400 ∧
    (ProxyV0.HandleAcmeChallenge (some [])
        ⟨"/.well-known/acme-challenge/tok", "www.example.com"⟩).status
        ≠ 404 := by
  refine ⟨by decide, by decide, by decide, by decide⟩

/-- C4 (amended).  For every request, with `token` the path after the ACME
prefix and `host` the request host with any port stripped: when the stored
challenge for `host` carries exactly `token`, both in-repo revisions of the
handler reply 200 with the stored key authorization as body; when no
challenge is stored for `host`, or the stored token differs, the
src/unnamed/part_015 revision replies 404 and the src/proxy/challenge.go
revision replies 400, both with an empty body. -/
theorem handleAcmeChallenge_spec (st : ChallengeStore) (r : HttpRequest) :
    (∀ c, GetDomainChallenge st (ExtractDomain r.host) = some c →
      c.token = TrimPrefixGo r.path AcmePrefix →
      HandleAcmeChallenge st r = { status := 200, body := c.auth } ∧
      ProxyV0.HandleAcmeChallenge st r = { status := 200, body := c.auth }) ∧
    (GetDomainChallenge st (ExtractDomain r.host) = none →
      HandleAcmeChallenge st r = { status := 404, body := "" } ∧
      ProxyV0.HandleAcmeChallenge st r = { status := 400, body := "" }) ∧
    (∀ c, GetDomainChallenge st (ExtractDomain r.host) = some c →
      c.token ≠ TrimPrefixGo r.path AcmePrefix →
      HandleAcmeChallenge st r = { status := 404, body := "" } ∧
      ProxyV0.HandleAcmeChallenge st r = { status := 400, body := "" }) := by
  refine ⟨?_, ?_, ?_⟩
  · intro c hc htok
    constructor
    · simp [HandleAcmeChallenge, Authorize, hc, htok]
    · simp [ProxyV0.HandleAcmeChallenge, ProxyV0.stripPort_eq, Authorize,
        hc, htok]
  · intro hc
    constructor
    · simp [HandleAcmeChallenge, Authorize, hc]
    · simp [ProxyV0.HandleAcmeChallenge, ProxyV0.stripPort_eq, Authorize, hc]
  · intro c hc htok
    constructor
    · simp [HandleAcmeChallenge, Authorize, hc, htok]
    · simp [ProxyV0.HandleAcmeChallenge, ProxyV0.stripPort_eq, Authorize,
        hc, htok]

/-- C7.  `ChallengeCreate` errors when no ACME account is configured and
for every challenge type other than HTTP-01 and NONE; a NONE challenge
returns success with no background task; an HTTP-01 challenge schedules
exactly the requested domains that have no in-flight challenge record, and
returns a no-task success when every requested domain is excluded. -/
theorem challengeCreate_spec (cfg : Bool) (st : ChallengeStore)
    (domains : List String) (ch : String) :
    (cfg = false → ∃ e, ChallengeCreate cfg st domains ch = .error e) ∧
    (cfg = true → ch = ChallengeTypeNone →
      ChallengeCreate cfg st domains ch = .ok none) ∧
    (cfg = true → ch ≠ ChallengeTypeNone → ch ≠ ChallengeTypeHTTP →
      ∃ e, ChallengeCreate cfg st domains ch = .error e) ∧
    (cfg = true → ch = ChallengeTypeHTTP →
      (∀ l, ChallengeCreate cfg st domains ch = .ok (some l) →
        ∀ d, d ∈ l ↔ d ∈ domains ∧ GetDomainChallenge st d = none) ∧
      ((∀ d ∈ domains, (GetDomainChallenge st d).isSome) →
        ChallengeCreate cfg st domains ch = .ok none)) := by
  refine ⟨?_, ?_, ?_, ?_⟩
  · intro h; subst h
    exact ⟨"ACME email is not configured", by simp [ChallengeCreate]⟩
  · intro hc h; subst hc; subst h; simp [ChallengeCreate]
  · intro hc h1 h2; subst hc
    exact ⟨"challenge type not supported", by simp [ChallengeCreate, h1, h2]⟩
  · intro hc h; subst hc; subst h
    constructor
    · intro l hl d
      by_cases hempty :
          (domains.filter (fun d => (GetDomainChallenge st d).isNone)).isEmpty
      · simp [ChallengeCreate, ChallengeTypeHTTP, ChallengeTypeNone,
          hempty] at hl
      · simp only [ChallengeCreate, ChallengeTypeHTTP, ChallengeTypeNone,
          hempty] at hl
        simp at hl
        subst hl
        simp [List.mem_filter, Option.isNone_iff_eq_none]
    · intro hall
      have hfil :
          domains.filter (fun d => (GetDomainChallenge st d).isNone) = [] := by
        rw [List.filter_eq_nil_iff]
        intro d hd
        have hs := hall d hd
        intro hn
        rw [Option.isNone_iff_eq_none] at hn
        rw [hn] at hs
        simp at hs
      simp [ChallengeCreate, ChallengeTypeHTTP, ChallengeTypeNone, hfil]

/-- C7 witness: the four branches at concrete inputs — unconfigured
account, a NONE challenge, an unsupported DNS-01 challenge, and an HTTP-01
challenge whose one domain is already in flight. -/
theorem challengeCreate_spec_witness :
    (∃ e, ChallengeCreate false none ["a.example"] ChallengeTypeHTTP
        = .error e) ∧
    ChallengeCreate true none ["a.example"] ChallengeTypeNone = .ok none ∧
    (∃ e, ChallengeCreate true none ["a.example"] ChallengeTypeDNS
        = .error e) ∧
    ChallengeCreate true
        (some [("a.example", ⟨"t", "k"⟩)]) ["a.example"] ChallengeTypeHTTP
        = .ok none :=
  ⟨(challengeCreate_spec false none ["a.example"] ChallengeTypeHTTP).1 rfl,
   (challengeCreate_spec true none ["a.example"] ChallengeTypeNone).2.1
     rfl rfl,
   ((challengeCreate_spec true none ["a.example"] ChallengeTypeDNS).2.2.1
     rfl (by decide) (by decide)),
   (((challengeCreate_spec true (some [("a.example", ⟨"t", "k"⟩)])
       ["a.example"] ChallengeTypeHTTP).2.2.2 rfl rfl).2 (by decide))⟩

/-! ## Route registration, singular-domain revision

src/manager/ingress.go (IngressManager, lines 118-144) registers one
domain per call: the stored record is `model.IngressRoute`, the argument
the single-domain `types.Ingress` revision of src/unnamed/part_010. -/

namespace Model

/-- model.IngressRoute (src/model/ingress.go). -/
structure IngressRoute where
  domain : String
  endpoint : String
  service : String
  project : String
  deriving DecidableEq, Repr

end Model

namespace TypesV0

/-- types.Ingress, the single-domain revision of src/unnamed/part_010. -/
structure Ingress where
  domain : String
  containerPort : Int
  targetEndpoint : String
  targetService : String
  targetProject : String
  challengeType : String
  deriving DecidableEq, Repr

end TypesV0

/-- The routes bucket of this revision: one `model.IngressRoute` per
domain key (an absent bucket reads the same as an empty one). -/
abbrev RouteStoreV0 := List (String × Model.IngressRoute)

namespace IngressMgr

/-- db.Client.GetIngressRoute, reached through IngressManager.Match:
the stored route or `NotFound`. -/
def Match (b : RouteStoreV0) (domain : String) :
    Except String Model.IngressRoute :=
  match bget b domain with
  | some route => .ok route
  | none => .error "item not found"

/-- db.Client.SaveIngressRoute: put the record at its domain key. -/
def SaveIngressRoute (b : RouteStoreV0) (route : Model.IngressRoute) :
    RouteStoreV0 :=
  bput b route.domain route

/-- IngressManager.RegisterRoute (src/manager/ingress.go lines 118-144).
When a route for the domain exists: an equal endpoint returns at once
with no write; a different project is a conflict error; a different
service of the same project only logs a warning.  Every non-error path
that reaches the end overwrites the record. -/
def RegisterRoute (b : RouteStoreV0) (ingress : TypesV0.Ingress) :
    Except String RouteStoreV0 :=
  match Match b ingress.domain with
  | .ok route =>
      if route.endpoint = ingress.targetEndpoint then
        -- no action required, correct endpoint already assigned
        .ok b
      else if route.project ≠ ingress.targetProject then
        .error ("domain " ++ ingress.domain
          ++ " is already in use for project=" ++ route.project)
      else
        -- an overwritten service is only a logged warning
        .ok (SaveIngressRoute b
          ⟨ingress.domain, ingress.targetEndpoint, ingress.targetService,
           ingress.targetProject⟩)
  | .error _ =>
      .ok (SaveIngressRoute b
        ⟨ingress.domain, ingress.targetEndpoint, ingress.targetService,
         ingress.targetProject⟩)

end IngressMgr

/-- C2 counterexample.  A domain bound to service `s1` of project `p` (with
endpoint `e1`): registering the same domain for the *different* service
`s2` of the same project (endpoint `e2`) must fail by the claim, but the
code overwrites the binding and succeeds. -/
theorem registerRoute_claim_cex :
    bget [("d", ⟨"d", "e1", "s1", "p"⟩)] "d"
        = some (⟨"d", "e1", "s1", "p"⟩ : Model.IngressRoute) ∧
    ("s1" : String) ≠ "s2" ∧
    IngressMgr.RegisterRoute [("d", ⟨"d", "e1", "s1", "p"⟩)]
        ⟨"d", 80, "e2", "s2", "p", "NONE"⟩
        = .ok [("d", ⟨"d", "e2", "s2", "p"⟩)] := by
  refine ⟨by decide, by decide, by rfl⟩

/-- C2 (amended).  `RegisterRoute` succeeds when the domain is unbound
(writing the new binding), and also whenever the stored route belongs to
the same project or already carries the target endpoint — in particular
whenever the domain is bound to the same `(project, service)` pair, but
also when only the service differs (overwritten with a warning) or when
the endpoint matches a foreign owner.  It fails exactly when the stored
route has both a different endpoint and a different project. -/
theorem registerRoute_cases (b : RouteStoreV0) (ing : TypesV0.Ingress) :
    (bget b ing.domain = none →
      IngressMgr.RegisterRoute b ing
        = .ok (bput b ing.domain
            ⟨ing.domain, ing.targetEndpoint, ing.targetService,
             ing.targetProject⟩)) ∧
    (∀ r, bget b ing.domain = some r →
      r.project = ing.targetProject ∨ r.endpoint = ing.targetEndpoint →
      ∃ b', IngressMgr.RegisterRoute b ing = .ok b') ∧
    (∀ r, bget b ing.domain = some r →
      r.endpoint ≠ ing.targetEndpoint → r.project ≠ ing.targetProject →
      ∃ e, IngressMgr.RegisterRoute b ing = .error e) := by
  refine ⟨?_, ?_, ?_⟩
  · intro h
    simp [IngressMgr.RegisterRoute, IngressMgr.Match, h,
      IngressMgr.SaveIngressRoute]
  · intro r hr hsame
    by_cases he : r.endpoint = ing.targetEndpoint
    · exact ⟨b, by simp [IngressMgr.RegisterRoute, IngressMgr.Match, hr, he]⟩
    · rcases hsame with hp | hp
      · refine ⟨IngressMgr.SaveIngressRoute b
          ⟨ing.domain, ing.targetEndpoint, ing.targetService,
           ing.targetProject⟩, ?_⟩
        simp [IngressMgr.RegisterRoute, IngressMgr.Match, hr, he, hp]
      · exact absurd hp he
  · intro r hr he hp
    refine ⟨"domain " ++ ing.domain ++ " is already in use for project="
      ++ r.project, ?_⟩
    simp [IngressMgr.RegisterRoute, IngressMgr.Match, hr, he, hp]

/-- C2 witness: the three cases at concrete inputs — an unbound domain is
written, a binding of the same project with another endpoint succeeds, a
binding of another project with another endpoint errors. -/
theorem registerRoute_cases_witness :
    IngressMgr.RegisterRoute [] ⟨"d", 80, "e", "s", "p", "NONE"⟩
        = .ok [("d", ⟨"d", "e", "s", "p"⟩)] ∧
    (∃ b', IngressMgr.RegisterRoute [("d", ⟨"d", "e1", "s", "p"⟩)]
        ⟨"d", 80, "e2", "s", "p", "NONE"⟩ = .ok b') ∧
    (∃ e, IngressMgr.RegisterRoute [("d", ⟨"d", "e1", "s", "q"⟩)]
        ⟨"d", 80, "e2", "s", "p", "NONE"⟩ = .error e) :=
  ⟨(registerRoute_cases [] ⟨"d", 80, "e", "s", "p", "NONE"⟩).1 (by decide),
   (registerRoute_cases [("d", ⟨"d", "e1", "s", "p"⟩)]
       ⟨"d", 80, "e2", "s", "p", "NONE"⟩).2.1
     (⟨"d", "e1", "s", "p"⟩ : Model.IngressRoute) (by decide)
     (Or.inl (by decide)),
   (registerRoute_cases [("d", ⟨"d", "e1", "s", "q"⟩)]
       ⟨"d", 80, "e2", "s", "p", "NONE"⟩).2.2
     (⟨"d", "e1", "s", "q"⟩ : Model.IngressRoute) (by decide) (by decide)
     (by decide)⟩

/-- C10.  When the stored route for the domain already carries exactly the
endpoint being registered, `RegisterRoute` returns success with the store
untouched — before the project and service ownership comparisons, so this
holds even when the stored owner is a different `(project, service)`. -/
theorem registerRoute_endpoint_short (b : RouteStoreV0)
    (ing : TypesV0.Ingress) (r : Model.IngressRoute)
    (hr : bget b ing.domain = some r)
    (he : r.endpoint = ing.targetEndpoint) :
    IngressMgr.RegisterRoute b ing = .ok b := by
  simp [IngressMgr.RegisterRoute, IngressMgr.Match, hr, he]

/-- C10 witness: the stored route belongs to another project *and* another
service, yet re-registration with the same endpoint succeeds and leaves
the store exactly as it was. -/
theorem registerRoute_endpoint_short_witness :
    (⟨"d", "e", "s1", "p1"⟩ : Model.IngressRoute).project ≠ "p2" ∧
    (⟨"d", "e", "s1", "p1"⟩ : Model.IngressRoute).service ≠ "s2" ∧
    IngressMgr.RegisterRoute [("d", ⟨"d", "e", "s1", "p1"⟩)]
        ⟨"d", 80, "e", "s2", "p2", "NONE"⟩
        = .ok [("d", ⟨"d", "e", "s1", "p1"⟩)] :=
  ⟨by decide, by decide,
   registerRoute_endpoint_short [("d", ⟨"d", "e", "s1", "p1"⟩)]
     ⟨"d", 80, "e", "s2", "p2", "NONE"⟩ ⟨"d", "e", "s1", "p1"⟩
     (by decide) (by decide)⟩

/-! ## manager/docker: the runtime adapter

The daemon's observable state: named networks, containers (with the
labels, state, memory limit and host-port binding the client sets), the
volumes created on demand, and the host ports other processes hold (the
environment `GetAvailablePort` probes by binding).  Container ids are
identified with container names — the code only round-trips ids between
`FindContainer`/`CreateContainer` and `Start`/`Remove`.  Image pulls
change nothing observable here and their failures belong to the
environment, so they are not modelled. -/

/-- docker.ToBytes (src/manager/docker/helper.go): decimal megabytes to
bytes. -/
def ToBytes (mb : Int) : Int := mb * 1000 * 1000

/-- docker.PortStartRange. -/
def PortStartRange : Nat := 30000

/-- docker.PortEndRange. -/
def PortEndRange : Nat := 35000

/-- A daemon-side container record: `name` without the leading slash the
API reports (the client strips it right back), `configHash` the
`conter.hash` label, `projectLabel` the `conter.project` label,
`hostPort` the single `127.0.0.1` binding `CreateContainer` makes.  The
daemon's opaque container id is identified with the unique container
name: the code only round-trips ids between `FindContainer` /
`CreateContainer` and `StartContainer` / `RemoveContainer`. -/
structure DockerContainer where
  name : String
  state : String
  hostPort : Option Nat
  configHash : String
  projectLabel : String
  networkMode : String
  memory : Int
  deriving DecidableEq, Repr

/-- The runtime adapter's state. -/
structure DockerState where
  networks : List String
  containers : List DockerContainer
  volumes : List String
  busyPorts : List Nat
  deriving DecidableEq, Repr

/-- The first published host endpoint of a container, as `FindContainer`
derives it from the port bindings. -/
def endpointOf (c : DockerContainer) : String :=
  match c.hostPort with
  | some p => "127.0.0.1:" ++ toString p
  | none => ""

/-- docker.Container.IsRunning. -/
def isRunning (c : DockerContainer) : Bool := c.state = "running"

/-- docker.Client.FindContainer: inspect by name, or nothing. -/
def FindContainer (d : DockerState) (name : String) :
    Option DockerContainer :=
  d.containers.find? (fun c => c.name = name)

/-- The host ports that are not free: those other processes hold and those
bound by existing containers. -/
def usedPorts (d : DockerState) : List Nat :=
  d.busyPorts ++ d.containers.filterMap (fun c => c.hostPort)

/-- The probe loop of docker.GetAvailablePort: try each port from
`port` on, `fuel` ports in all; 0 when every one is taken. -/
def goPort (used : List Nat) : Nat → Nat → Nat
  | 0, _ => 0
  | fuel + 1, port => if port ∈ used then goPort used fuel (port + 1) else port

/-- docker.GetAvailablePort (src/manager/docker/helper.go): the first
bindable port in `[start, stop]`, or 0 when the range is exhausted. -/
def GetAvailablePort (used : List Nat) (start stop : Nat) : Nat :=
  goPort used (stop + 1 - start) start

/-- docker.Client.CreateNetworkIfNotExists: idempotent; the network id is
its name. -/
def CreateNetworkIfNotExists (d : DockerState) (name : String) :
    String × DockerState :=
  if name ∈ d.networks then (name, d)
  else (name, { d with networks := d.networks ++ [name] })

/-- docker.Client.DeleteNetwork: fails when the daemon does not know the
network. -/
def DeleteNetwork (d : DockerState) (name : String) :
    Except String Unit × DockerState :=
  if name ∈ d.networks then
    (.ok (), { d with networks := d.networks.erase name })
  else (.error "failed to remove network", d)

/-- docker.Client.StartContainer (`id` is the container id, identified
with the container name here). -/
def StartContainer (d : DockerState) (id : String) :
    Except String Unit × DockerState :=
  if d.containers.any (fun c => c.name = id) then
    let cs := d.containers.map
      (fun c => if c.name = id then { c with state := "running" } else c)
    (.ok (), { d with containers := cs })
  else (.error "no such container", d)

/-- docker.Client.RemoveContainer: forceful, volumes retained (`id` as in
`StartContainer`). -/
def RemoveContainer (d : DockerState) (id : String) :
    Except String Unit × DockerState :=
  if d.containers.any (fun c => c.name = id) then
    let cs := d.containers.filter (fun c => ¬(c.name = id))
    (.ok (), { d with containers := cs })
  else (.error "no such container", d)

/-- docker.Client.CreateVolumeIfNotExists: the volume
`<project>.<service>-<logical>`, created on demand. -/
def volumeNameOf (service : Service) (name : String) : String :=
  service.ingress.targetProject ++ "." ++ service.name ++ "-" ++ name

/-- Ensure every volume of the service exists. -/
def ensureVolumes (d : DockerState) (service : Service) : DockerState :=
  let vols := service.volumes.foldl
    (fun acc v =>
      if volumeNameOf service v.name ∈ acc then acc
      else acc ++ [volumeNameOf service v.name]) d.volumes
  { d with volumes := vols }

/-- docker.Client.CreateContainer (src/manager/docker/client.go):
pull (not modelled), labels from the service (hash and project), memory
limit defaulting to `ToBytes 128` and overwritten by a set quota, volume
mounts created on demand, then — when the container port is positive — a
host port from the reserved pool bound as `127.0.0.1:<port>`, and the
container created under the service's container name (the daemon refuses
a duplicate name).  The returned record is the created container, state
`created`. -/
def CreateContainer (d : DockerState) (service : Service) (netId : String) :
    Except String DockerContainer × DockerState :=
  let d := ensureVolumes d service
  let memory :=
    if service.quota.memoryLimit > 0 then ToBytes service.quota.memoryLimit
    else ToBytes 128
  if service.ingress.containerPort > 0 then
    let exposed := GetAvailablePort (usedPorts d) PortStartRange PortEndRange
    if exposed = 0 then (.error "no more available ports to assign", d)
    else if (FindContainer d service.containerName).isSome then
      (.error "container name already in use", d)
    else
      let c : DockerContainer :=
        ⟨service.containerName, "created", some exposed, service.hash,
         service.ingress.targetProject, netId, memory⟩
      (.ok c, { d with containers := d.containers ++ [c] })
  else
    if (FindContainer d service.containerName).isSome then
      (.error "container name already in use", d)
    else
      let c : DockerContainer :=
        ⟨service.containerName, "created", none, service.hash,
         service.ingress.targetProject, netId, memory⟩
      (.ok c, { d with containers := d.containers ++ [c] })

/-- docker.Client.RemoveUnusedContainers: delete every container labelled
with the project whose name is absent from the exclusion list, and count
them.  (Go skips the name scan for an empty exclusion list; membership in
the empty list is false either way.) -/
def RemoveUnusedContainers (d : DockerState) (project : String)
    (excluded : List String) : Nat × DockerState :=
  let victims := d.containers.filter
    (fun c => c.projectLabel = project ∧ c.name ∉ excluded)
  let kept := d.containers.filter
    (fun c => ¬(c.projectLabel = project ∧ c.name ∉ excluded))
  (victims.length, { d with containers := kept })

/-- docker.Client.RemoveAllContainersForProject. -/
def RemoveAllContainersForProject (d : DockerState) (project : String) :
    Nat × DockerState :=
  RemoveUnusedContainers d project []

/-- C9.  `ToBytes` converts decimal megabytes by multiplying with 10⁶
(`ToBytes 128 = 128000000`), and a created container's memory limit is
`ToBytes` of the service's quota when that is set (> 0), `ToBytes 128`
otherwise. -/
theorem toBytes_and_memory (mb : Int) (d : DockerState) (svc : Service)
    (netId : String) :
    ToBytes 128 = 128000000 ∧
    ToBytes mb = mb * 1000000 ∧
    (∀ c d', CreateContainer d svc netId = (.ok c, d') →
      c.memory = if svc.quota.memoryLimit > 0 then
        ToBytes svc.quota.memoryLimit else ToBytes 128) := by
  refine ⟨by decide, by unfold ToBytes; ring, ?_⟩
  intro c d' h
  simp only [CreateContainer] at h
  split at h
  · split at h
    · exact absurd h (by simp)
    · split at h
      · exact absurd h (by simp)
      · simp at h
        rw [← h.1]
  · split at h
    · exact absurd h (by simp)
    · simp at h
      rw [← h.1]

/-- C9 witness: a quota-less service gets the 128 MB default, a 256 MB
quota gets 256000000 bytes — concrete creations, end to end. -/
theorem toBytes_and_memory_witness :
    ToBytes 128 = 128000000 ∧
    (CreateContainer ⟨[], [], [], []⟩
        ⟨"s", "h", "p_s", "img", ⟨"docker", "img", []⟩, [], ⟨0⟩,
         ⟨[], 0, "", "s", "p", "NONE"⟩, []⟩ "net").1
      = .ok ⟨"p_s", "created", none, "h", "p", "net", 128000000⟩ ∧
    (CreateContainer ⟨[], [], [], []⟩
        ⟨"s", "h", "p_s", "img", ⟨"docker", "img", []⟩, [], ⟨256⟩,
         ⟨[], 0, "", "s", "p", "NONE"⟩, []⟩ "net").1
      = .ok ⟨"p_s", "created", none, "h", "p", "net", 256000000⟩ :=
  ⟨(toBytes_and_memory 0 ⟨[], [], [], []⟩
      ⟨"s", "h", "p_s", "img", ⟨"docker", "img", []⟩, [], ⟨0⟩,
       ⟨[], 0, "", "s", "p", "NONE"⟩, []⟩ "net").1,
   rfl, rfl⟩

/-! ## The reconciler of src/unnamed/part_005

`ApplyProject` / `ApplyService` / `RemoveProject` over the combined
system state: the runtime adapter, the routes bucket and the projects
bucket.  The route layer this revision calls — a multi-domain
`IngressManager.RegisterRoute` without a context argument — is not among
the repository's files (only this caller is); it is modelled from the
spec below. -/

/-- The routes bucket in the spec's multi-domain shape (§3): one entry
per domain, each domain key mapping to the full ingress record. -/
abbrev RouteStore := List (String × Ingress)

/-- Modelled from the spec: the multi-domain `IngressManager.RegisterRoute`
that src/unnamed/part_005 calls is missing from the repository's files.
Spec §4.D: "`Register(ingress)` validates that every listed domain is
either unbound or already bound to the same `(project, service)`.  On
conflict with a different project or service, fails.  On success, writes
one store entry per domain in a single transaction, then asynchronously
requests certificates" — the asynchronous certificate request touches no
store modelled here. -/
def RegisterRoute (routes : RouteStore) (ingress : Ingress) :
    Except String RouteStore :=
  if ingress.domains.all (fun d =>
      match bget routes d with
      | none => true
      | some r => r.targetProject = ingress.targetProject
          ∧ r.targetService = ingress.targetService) then
    .ok (ingress.domains.foldl (fun acc d => bput acc d ingress) routes)
  else
    .error "domain conflict"

/-- IngressManager.RemoveUnusedRoutes (the counting revision of
src/manager/ingress.go lines 147-166) over the multi-domain store: delete
every stored ingress of the project whose domain key is not excluded, and
count the deletions. -/
def RemoveUnusedRoutes (routes : RouteStore) (project : String)
    (excludedDomains : List String) : Nat × RouteStore :=
  let victims := routes.filter
    (fun p => p.2.targetProject = project ∧ p.1 ∉ excludedDomains)
  let kept := routes.filter
    (fun p => ¬(p.2.targetProject = project ∧ p.1 ∉ excludedDomains))
  (victims.length, kept)

/-- IngressManager.RemoveAllRoutes: no excluded domains. -/
def RemoveAllRoutes (routes : RouteStore) (project : String) :
    Nat × RouteStore :=
  RemoveUnusedRoutes routes project []

/-- The persistent and runtime state `ApplyProject` acts on. -/
structure SysState where
  docker : DockerState
  routes : RouteStore
  projects : List (String × List Service)
  deriving DecidableEq, Repr

/-- What an apply run did: routes pruned, containers pruned, containers
rebuilt on a hash mismatch, containers created. -/
structure Trace where
  routesRemoved : Nat
  containersRemoved : Nat
  containersRebuilt : Nat
  containersCreated : Nat
  deriving DecidableEq, Repr

/-- An apply error: the structured validation error, or a failure
bubbling up from the runtime or the stores. -/
inductive ApplyErr where
  | validation (reasons : List (String × String))
  | failure (msg : String)
  deriving DecidableEq, Repr

/-- source.GetImageFromSource (src/manager/source/executor.go): a docker
source's URI is its image.  The git branch hands off to a builder that
shells out to external tools; `ApplyProject` only reaches this call after
validation has restricted the source type to docker, so the branch is
collapsed into the executor's failure outcome here. -/
def GetImageFromSource (service : Service) : Except String String :=
  if service.source.type = "docker" then .ok service.source.uri
  else .error ("source=" ++ service.source.type ++ " is not supported")

/-- The anonymous per-service struct of ApplyProjectOptions. -/
structure ApplyServiceOptions where
  name : String
  source : Source
  environment : List (String × String)
  ingressDomains : List String
  containerPort : Int
  volumes : List Volume
  challengeType : String
  quota : Quota
  deriving DecidableEq, Repr

/-- manager.ApplyProjectOptions. -/
structure ApplyProjectOptions where
  projectName : String
  services : List ApplyServiceOptions
  deriving DecidableEq, Repr

/-- The field prefix `services[i].` of the validation messages. -/
def svcPre (i : Nat) : String := "services[" ++ toString i ++ "]."

/-- The field prefix `services[i].volumes[j].`. -/
def volPre (pre : String) (j : Nat) : String :=
  pre ++ "volumes[" ++ toString j ++ "]."

/-- Go `strings.Contains(s, " ")`. -/
def containsSpace (s : String) : Bool := s.data.contains ' '

/-- The volume checks of ApplyProjectOptions.validate, with the running
volume index `j`; `ValidationError.Append` is a map write, so a second
reason for the same field overwrites the first. -/
def validateVolumes (err : List (String × String)) (pre : String)
    (j : Nat) : List Volume → List (String × String)
  | [] => err
  | v :: rest =>
      let vp := volPre pre j
      let err := if v.name = "" then
        bput err (vp ++ "name") "Volume name is required" else err
      let err := if containsSpace v.name then
        bput err (vp ++ "name") "Volume name must not contain spaces" else err
      let err := if v.path = "" then
        bput err (vp ++ "path") "Volume path is required" else err
      let err := if ¬HasPrefixGo v.path "/" then
        bput err (vp ++ "path") "Volume path must be absolute" else err
      validateVolumes err pre (j + 1) rest

/-- The per-service checks of ApplyProjectOptions.validate. -/
def validateSvc (err : List (String × String)) (pre : String)
    (s : ApplyServiceOptions) : List (String × String) :=
  let err := if s.name = "" then
    bput err (pre ++ "name") "Services name is required" else err
  let err := if s.source.type = "" then
    bput err (pre ++ "source.type") "Source type is required"
  else if s.source.type ≠ "docker" then
    bput err (pre ++ "source.type")
      ("Source type=" ++ s.source.type ++ " is not supported")
  else err
  let err := if s.source.uri = "" then
    bput err (pre ++ "source.uri") "Source URI is required" else err
  let err := if s.ingressDomains.length > 0 then
    -- indication that the service should be exposed
    let err := if s.challengeType ≠ ChallengeTypeHTTP
        ∧ s.challengeType ≠ ChallengeTypeNone then
      bput err (pre ++ "challenge_type")
        ("Challenge type=" ++ s.challengeType ++ " is not supported")
    else err
    if s.containerPort ≤ 0 then
      bput err (pre ++ "container_port")
        "A valid container port is required to expose a service"
    else err
  else err
  let err := if s.quota.memoryLimit > 0 ∧ s.quota.memoryLimit < 128 then
    bput err (pre ++ "quota.memory_limit") "The minimum memory limit is 128MB"
  else err
  validateVolumes err pre 0 s.volumes

/-- The service loop of validate, with the running index. -/
def validateSvcs (err : List (String × String)) (i : Nat) :
    List ApplyServiceOptions → List (String × String)
  | [] => err
  | s :: rest => validateSvcs (validateSvc err (svcPre i) s) (i + 1) rest

/-- The reasons map ApplyProjectOptions.validate accumulates: project
name, then — returning early with only the `services` entry when no
service is listed — every per-service rule in declaration order. -/
def validateReasons (opts : ApplyProjectOptions) :
    List (String × String) :=
  let err := if opts.projectName = "" then
    bput [] "project_name" "Project name is required" else []
  if opts.services.isEmpty then
    bput err "services" "At least one service is required"
  else
    validateSvcs err 0 opts.services

/-- ApplyProjectOptions.validate: the reasons map when any rule failed,
nothing otherwise. -/
def validate (opts : ApplyProjectOptions) :
    Option (List (String × String)) :=
  let err := validateReasons opts
  if err.isEmpty then none else some err

/-- The service with its ingress target endpoint replaced. -/
def setEndpoint (s : Service) (e : String) : Service :=
  { s with ingress := { s.ingress with targetEndpoint := e } }

/-- The creation tail of Container.ApplyService (part_005 lines 267-287),
shared by the fall-through from a hash mismatch and by a missing
container: create the container, start it, adopt its endpoint, register
the route. -/
def createAndRegister (st : SysState) (tr : Trace) (service : Service)
    (netId : String) : Except String Service × SysState × Trace :=
  match CreateContainer st.docker service netId with
  | (.error e, d') =>
      (.error ("failed to create container: " ++ e),
       { st with docker := d' }, tr)
  | (.ok container, d') =>
      let tr := { tr with containersCreated := tr.containersCreated + 1 }
      match StartContainer d' container.name with
      | (.error e, d'') =>
          (.error ("failed to start container: " ++ e),
           { st with docker := d'' }, tr)
      | (.ok _, d'') =>
          let service := setEndpoint service (endpointOf container)
          match RegisterRoute st.routes service.ingress with
          | .error e =>
              (.error ("failed to register ingress route: " ++ e),
               { st with docker := d'' }, tr)
          | .ok routes' =>
              (.ok service, ⟨d'', routes', st.projects⟩, tr)

/-- Container.ApplyService (part_005 lines 224-288): an existing container
hands over its endpoint; a hash mismatch removes it (endpoint reset) and
falls through to creation; a matching stopped container is started; a
matching container keeps running; either way the route is (re)registered. -/
def ApplyService (st : SysState) (tr : Trace) (service : Service)
    (netId : String) : Except String Service × SysState × Trace :=
  match FindContainer st.docker service.containerName with
  | some container =>
      -- docker decides the endpoint: remap it from the found container
      let service := setEndpoint service (endpointOf container)
      if container.configHash ≠ service.hash then
        -- rebuild: remove, reset the inherited endpoint, fall through
        match RemoveContainer st.docker container.name with
        | (.error e, d') =>
            (.error ("failed to remove old container: " ++ e),
             { st with docker := d' }, tr)
        | (.ok _, d') =>
            let tr := { tr with containersRebuilt := tr.containersRebuilt + 1 }
            createAndRegister { st with docker := d' } tr
              (setEndpoint service "") netId
      else
        match (if isRunning container then (.ok (), st.docker)
               else StartContainer st.docker container.name :
            Except String Unit × DockerState) with
        | (.error e, d') =>
            (.error ("unable to start container: " ++ e),
             { st with docker := d' }, tr)
        | (.ok _, d') =>
            match RegisterRoute st.routes service.ingress with
            | .error e =>
                (.error ("failed to register routes: " ++ e),
                 { st with docker := d' }, tr)
            | .ok routes' =>
                (.ok service, ⟨d', routes', st.projects⟩, tr)
  | none => createAndRegister st tr service netId

/-- The materialisation step of ApplyProject: container name
`<project>_<name>`, target service/project, image from the source
executor, then the configuration hash of the completed record. -/
def buildService (project : String) (s : ApplyServiceOptions) :
    Except String Service :=
  let svc : Service :=
    { name := s.name, hash := "",
      containerName := project ++ "_" ++ s.name, containerImage := "",
      source := s.source, environment := s.environment, quota := s.quota,
      ingress := { domains := s.ingressDomains,
                   containerPort := s.containerPort, targetEndpoint := "",
                   targetService := s.name, targetProject := project,
                   challengeType := s.challengeType },
      volumes := s.volumes }
  match GetImageFromSource svc with
  | .error e => .error ("failed to get image: " ++ e)
  | .ok img =>
      let svc := { svc with containerImage := img }
      .ok { svc with hash := CalculateHash svc }

/-- The materialisation loop of ApplyProject. -/
def materialize (project : String) :
    List ApplyServiceOptions → Except String (List Service)
  | [] => .ok []
  | s :: rest =>
      match buildService project s with
      | .error e => .error e
      | .ok svc =>
          match materialize project rest with
          | .error e => .error e
          | .ok svcs => .ok (svc :: svcs)

/-- The per-service application loop of ApplyProject, threading state and
trace and aborting on the first failure. -/
def applyServices (st : SysState) (tr : Trace) (netId : String) :
    List Service → Except String (List Service) × SysState × Trace
  | [] => (.ok [], st, tr)
  | s :: rest =>
      match ApplyService st tr s netId with
      | (.error e, st', tr') =>
          (.error ("failed to create service " ++ s.name ++ ": " ++ e),
           st', tr')
      | (.ok applied, st', tr') =>
          match applyServices st' tr' netId rest with
          | (.error e, st'', tr'') => (.error e, st'', tr'')
          | (.ok applieds, st'', tr'') =>
              (.ok (applied :: applieds), st'', tr'')

/-- Container.ApplyProject (part_005 lines 130-221): validate, materialise
the requested services, ensure the project network, prune unused routes
and containers, apply each service in declaration order, then persist the
service list under the project. -/
def ApplyProject (st : SysState) (opts : ApplyProjectOptions) :
    Except ApplyErr (List Service) × SysState × Trace :=
  match validate opts with
  | some e => (.error (.validation e), st, ⟨0, 0, 0, 0⟩)
  | none =>
      match materialize opts.projectName opts.services with
      | .error e => (.error (.failure e), st, ⟨0, 0, 0, 0⟩)
      | .ok services =>
          let domains := opts.services.flatMap (fun s => s.ingressDomains)
          let containers := opts.services.map
            (fun s => opts.projectName ++ "_" ++ s.name)
          let (netId, d1) :=
            CreateNetworkIfNotExists st.docker opts.projectName
          let (removedRoutes, routes1) :=
            RemoveUnusedRoutes st.routes opts.projectName domains
          let (removedCtrs, d2) :=
            RemoveUnusedContainers d1 opts.projectName containers
          let st1 : SysState := ⟨d2, routes1, st.projects⟩
          let tr1 : Trace := ⟨removedRoutes, removedCtrs, 0, 0⟩
          match applyServices st1 tr1 netId services with
          | (.error e, st', tr') => (.error (.failure e), st', tr')
          | (.ok applieds, st', tr') =>
              let saved := bput st'.projects opts.projectName applieds
              (.ok applieds, { st' with projects := saved }, tr')

/-- Which steps Container.RemoveProject (part_005 lines 291-316) performed,
in order. -/
inductive RemoveAction where
  | routes
  | containers
  | network
  | record
  deriving DecidableEq, Repr

/-- Container.RemoveProject, its collaborators' outcomes made explicit:
`routesRes` is what `IngressManager.RemoveAllRoutes` returned,
`containersRes` what `Docker.RemoveAllContainersForProject` returned,
`networkRes` what `Docker.DeleteNetwork` returned.  A failure of the
first aborts with the routes step done; a failure of the second aborts
with two steps done; a failed network deletion is only logged, and the
project record is deleted from the store regardless. -/
def RemoveProjectFlow (routesRes : Except String Nat)
    (containersRes : Except String Nat) (networkRes : Except String Unit)
    (projects : List (String × List Service)) (project : String) :
    Except String Unit × List (String × List Service) × List RemoveAction :=
  match routesRes with
  | .error e =>
      (.error ("failed to remove routes: " ++ e), projects, [.routes])
  | .ok _ =>
      match containersRes with
      | .error e =>
          (.error ("failed to remove containers: " ++ e), projects,
           [.routes, .containers])
      | .ok _ =>
          -- a failed DeleteNetwork is only a logged warning
          match networkRes with
          | _ =>
              (.ok (), bdel projects project,
               [.routes, .containers, .network, .record])

/-- `Except.isOk`, locally. -/
def isOkE {ε α : Type} (e : Except ε α) : Bool :=
  match e with
  | .ok _ => true
  | .error _ => false

/-- C6.  `RemoveProject` runs route removal, container removal, network
deletion and record deletion in that order; a route- or container-removal
failure aborts with the project record untouched and later steps not
reached, while a network-deletion failure is only logged — the record is
deleted whatever `DeleteNetwork` returned. -/
theorem removeProject_flow (r c : Except String Nat)
    (n : Except String Unit) (projects : List (String × List Service))
    (project : String) :
    (∀ e, r = .error e →
      RemoveProjectFlow r c n projects project
        = (.error ("failed to remove routes: " ++ e), projects,
           [.routes])) ∧
    (∀ k e, r = .ok k → c = .error e →
      RemoveProjectFlow r c n projects project
        = (.error ("failed to remove containers: " ++ e), projects,
           [.routes, .containers])) ∧
    (∀ k k', r = .ok k → c = .ok k' →
      RemoveProjectFlow r c n projects project
        = (.ok (), bdel projects project,
           [.routes, .containers, .network, .record])) := by
  refine ⟨?_, ?_, ?_⟩
  · intro e he; subst he; rfl
  · intro k e hr hc; subst hr; subst hc; rfl
  · intro k k' hr hc; subst hr; subst hc; rfl

/-- C6 witness: the three outcomes at concrete inputs; in the third the
network deletion fails and the record is deleted nonetheless. -/
theorem removeProject_flow_witness :
    RemoveProjectFlow (.error "x") (.ok 0) (.ok ()) [("p", [])] "p"
      = (.error "failed to remove routes: x", [("p", [])], [.routes]) ∧
    RemoveProjectFlow (.ok 1) (.error "y") (.ok ()) [("p", [])] "p"
      = (.error "failed to remove containers: y", [("p", [])],
         [.routes, .containers]) ∧
    RemoveProjectFlow (.ok 1) (.ok 2) (.error "z") [("p", [])] "p"
      = (.ok (), [], [.routes, .containers, .network, .record]) :=
  ⟨(removeProject_flow (.error "x") (.ok 0) (.ok ()) [("p", [])] "p").1
     "x" rfl,
   (removeProject_flow (.ok 1) (.error "y") (.ok ()) [("p", [])] "p").2.1
     1 "y" rfl rfl,
   (removeProject_flow (.ok 1) (.ok 2) (.error "z") [("p", [])] "p").2.2
     1 2 rfl rfl⟩

/-- The C1 counterexample request: a valid project with two services that
share the name `s` but differ in source, so both map to the container
name `p_s` with different configuration hashes. -/
def cexOpts : ApplyProjectOptions :=
  ⟨"p", [⟨"s", ⟨"docker", "img1", []⟩, [], [], 0, [], "", ⟨0⟩⟩,
         ⟨"s", ⟨"docker", "img2", []⟩, [], [], 0, [], "", ⟨0⟩⟩]⟩

/-- C1 counterexample.  `cexOpts` passes validation and its first apply
from the empty state succeeds, yet the second apply of the very same
request rebuilds two containers (each service in turn finds `p_s`
carrying the other's hash): the claim's "rebuilds no container" fails. -/
theorem applyProject_idem_claim_cex :
    validate cexOpts = none ∧
    isOkE (ApplyProject ⟨⟨[], [], [], []⟩, [], []⟩ cexOpts).1 = true ∧
    isOkE (ApplyProject
        (ApplyProject ⟨⟨[], [], [], []⟩, [], []⟩ cexOpts).2.1 cexOpts).1
      = true ∧
    (ApplyProject
        (ApplyProject ⟨⟨[], [], [], []⟩, [], []⟩ cexOpts).2.1
        cexOpts).2.2.containersRebuilt = 2 := by
  refine ⟨by decide, by decide, by decide, by decide⟩

/-! ## C8: validation against the spec's rule list

`specViolatedFields` is written from the spec's rule list (§4.E), one
field per violated rule: project name required; at least one service;
per-service name required; source type must be `docker`; source URI
required; with ingress domains listed, a positive container port and a
challenge type among HTTP-01/NONE; a set memory quota at least 128;
volume names non-empty and — where the claim says whitespace-free — free
of the space character only, because the code's check is
`strings.Contains(volume.Name, " ")`; mount paths absolute.  The
space-only narrowing is a real divergence from the claim's wording:
`validate_whitespace_claim_cex` below shows a tab-holding volume name
passing validation.  The theorem compares the keys of the code's reasons
map with this (space-only) list. -/

/-- The fields of the violated volume rules: name empty or holding a
space (the code's check), path not absolute. -/
def specVolFields (pre : String) (j : Nat) : List Volume → List String
  | [] => []
  | v :: rest =>
      (if v.name = "" ∨ containsSpace v.name then [volPre pre j ++ "name"]
       else []) ++
      (if ¬HasPrefixGo v.path "/" then [volPre pre j ++ "path"] else []) ++
      specVolFields pre (j + 1) rest

/-- The fields of the violated per-service rules, per the spec's wording. -/
def specSvcFields (pre : String) (s : ApplyServiceOptions) : List String :=
  (if s.name = "" then [pre ++ "name"] else []) ++
  (if s.source.type ≠ "docker" then [pre ++ "source.type"] else []) ++
  (if s.source.uri = "" then [pre ++ "source.uri"] else []) ++
  (if s.ingressDomains ≠ [] ∧ s.challengeType ≠ ChallengeTypeHTTP
      ∧ s.challengeType ≠ ChallengeTypeNone then
    [pre ++ "challenge_type"] else []) ++
  (if s.ingressDomains ≠ [] ∧ s.containerPort ≤ 0 then
    [pre ++ "container_port"] else []) ++
  (if s.quota.memoryLimit > 0 ∧ s.quota.memoryLimit < 128 then
    [pre ++ "quota.memory_limit"] else []) ++
  specVolFields pre 0 s.volumes

/-- The service loop of the rule list. -/
def specSvcsFields (i : Nat) : List ApplyServiceOptions → List String
  | [] => []
  | s :: rest => specSvcFields (svcPre i) s ++ specSvcsFields (i + 1) rest

/-- The fields of all violated rules of a request, per the spec. -/
def specViolatedFields (opts : ApplyProjectOptions) : List String :=
  (if opts.projectName = "" then ["project_name"] else []) ++
  (if opts.services.isEmpty then ["services"]
   else specSvcsFields 0 opts.services)

theorem bput_cons_eq {α : Type} (k' : String) (v' : α)
    (tl : List (String × α)) (k : String) (v : α) (h : k' = k) :
    bput ((k', v') :: tl) k v = (k, v) :: tl := by
  simp [bput, h]

theorem bput_cons_ne {α : Type} (k' : String) (v' : α)
    (tl : List (String × α)) (k : String) (v : α) (h : ¬k' = k) :
    bput ((k', v') :: tl) k v = (k', v') :: bput tl k v := by
  simp [bput, h]

theorem mem_bput_elim {α : Type} (b : List (String × α)) (k : String)
    (v : α) (p : String × α) (hp : p ∈ bput b k v) : p ∈ b ∨ p = (k, v) := by
  induction b with
  | nil => simpa [bput] using hp
  | cons hd tl ih =>
      obtain ⟨k', v'⟩ := hd
      by_cases h : k' = k
      · rw [bput_cons_eq k' v' tl k v h] at hp
        rcases List.mem_cons.mp hp with h' | h'
        · right; exact h'
        · left; exact List.mem_cons_of_mem _ h'
      · rw [bput_cons_ne k' v' tl k v h] at hp
        rcases List.mem_cons.mp hp with h' | h'
        · left; exact h' ▸ List.mem_cons_self _ _
        · rcases ih h' with h'' | h''
          · left; exact List.mem_cons_of_mem _ h''
          · right; exact h''

theorem mem_bput_self {α : Type} (b : List (String × α)) (k : String)
    (v : α) : (k, v) ∈ bput b k v := by
  induction b with
  | nil => simp [bput]
  | cons hd tl ih =>
      obtain ⟨k', v'⟩ := hd
      by_cases h : k' = k
      · rw [bput_cons_eq k' v' tl k v h]; exact List.mem_cons_self _ _
      · rw [bput_cons_ne k' v' tl k v h]; exact List.mem_cons_of_mem _ ih

theorem mem_bput_of_ne {α : Type} (b : List (String × α)) (k : String)
    (v : α) (p : String × α) (hne : p.1 ≠ k) (hp : p ∈ b) :
    p ∈ bput b k v := by
  induction b with
  | nil => simp at hp
  | cons hd tl ih =>
      obtain ⟨k', v'⟩ := hd
      by_cases h : k' = k
      · rw [bput_cons_eq k' v' tl k v h]
        rcases List.mem_cons.mp hp with h' | h'
        · exact absurd (by simp [h', h]) hne
        · exact List.mem_cons_of_mem _ h'
      · rw [bput_cons_ne k' v' tl k v h]
        rcases List.mem_cons.mp hp with h' | h'
        · exact h' ▸ List.mem_cons_self _ _
        · exact List.mem_cons_of_mem _ (ih h')

theorem key_mem_bput {α : Type} (b : List (String × α)) (k : String)
    (v : α) (f : String) :
    (∃ r, (f, r) ∈ bput b k v) ↔ (f = k ∨ ∃ r, (f, r) ∈ b) := by
  constructor
  · rintro ⟨r, hr⟩
    rcases mem_bput_elim b k v (f, r) hr with h | h
    · right; exact ⟨r, h⟩
    · left; exact congrArg Prod.fst h
  · rintro (hf | ⟨r, hr⟩)
    · exact ⟨v, hf ▸ mem_bput_self b k v⟩
    · by_cases hfk : f = k
      · exact ⟨v, hfk ▸ mem_bput_self b k v⟩
      · exact ⟨r, mem_bput_of_ne b k v (f, r) hfk hr⟩

theorem key_mem_ite {α : Type} {c : Prop} [Decidable c]
    (b : List (String × α)) (k : String) (v : α) (f : String) :
    (∃ r, (f, r) ∈ (if c then bput b k v else b)) ↔
      ((c ∧ f = k) ∨ ∃ r, (f, r) ∈ b) := by
  by_cases hc : c
  · simp only [if_pos hc, key_mem_bput]; tauto
  · simp only [if_neg hc]; tauto

theorem validateVolumes_keys (vols : List Volume) :
    ∀ (err : List (String × String)) (pre : String) (j : Nat) (f : String),
    (∃ r, (f, r) ∈ validateVolumes err pre j vols) ↔
      ((∃ r, (f, r) ∈ err) ∨ f ∈ specVolFields pre j vols) := by
  induction vols with
  | nil => intro err pre j f; simp [validateVolumes, specVolFields]
  | cons v rest ih =>
      intro err pre j f
      simp only [validateVolumes]
      rw [ih]
      simp only [key_mem_ite, specVolFields, List.mem_append]
      by_cases h1 : v.name = "" <;>
        by_cases h2 : containsSpace v.name = true <;>
        by_cases h3 : v.path = "" <;>
        by_cases h4 : HasPrefixGo v.path "/" = true
      all_goals
        first
        | (exact absurd (h3 ▸ h4) (by decide))
        | (simp [h1, h2, h3, h4]; try tauto)

theorem key_mem_ite2 {α : Type} {A B : Prop} [Decidable A] [Decidable B]
    (b : List (String × α)) (k : String) (v1 v2 : α) (f : String) :
    (∃ r, (f, r) ∈ (if A then bput b k v1
        else if B then bput b k v2 else b)) ↔
      (((A ∨ B) ∧ f = k) ∨ ∃ r, (f, r) ∈ b) := by
  by_cases hA : A
  · simp only [if_pos hA, key_mem_bput]; tauto
  · by_cases hB : B
    · simp only [if_neg hA, if_pos hB, key_mem_bput]; tauto
    · simp only [if_neg hA, if_neg hB]; tauto

theorem key_mem_ingress {α : Type} {L C P : Prop} [Decidable L]
    [Decidable C] [Decidable P] (b : List (String × α)) (kc kp : String)
    (vc vp : α) (f : String) :
    (∃ r, (f, r) ∈ (if L then
        (if P then bput (if C then bput b kc vc else b) kp vp
         else (if C then bput b kc vc else b)) else b)) ↔
      ((L ∧ C ∧ f = kc) ∨ (L ∧ P ∧ f = kp) ∨ ∃ r, (f, r) ∈ b) := by
  by_cases hL : L
  · by_cases hP : P <;> by_cases hC : C <;>
      simp [hL, hP, hC, key_mem_bput] <;> tauto
  · simp only [if_neg hL]; tauto

theorem mem_ite_singleton {c : Prop} [Decidable c] (k f : String) :
    (f ∈ (if c then [k] else [])) ↔ (c ∧ f = k) := by
  by_cases hc : c <;> simp [hc]

set_option maxHeartbeats 2000000 in
theorem validateSvc_keys (err : List (String × String)) (pre : String)
    (s : ApplyServiceOptions) (f : String) :
    (∃ r, (f, r) ∈ validateSvc err pre s) ↔
      ((∃ r, (f, r) ∈ err) ∨ f ∈ specSvcFields pre s) := by
  simp only [validateSvc]
  rw [validateVolumes_keys]
  simp only [key_mem_ite, key_mem_ite2, key_mem_ingress]
  simp only [specSvcFields, List.mem_append, mem_ite_singleton, gt_iff_lt,
    List.length_pos]
  have htype : (s.source.type = "" ∨ s.source.type ≠ "docker")
      ↔ s.source.type ≠ "docker" := by
    constructor
    · rintro (h | h)
      · rw [h]; decide
      · exact h
    · exact Or.inr
  rw [htype]
  generalize (∃ r, (f, r) ∈ err) = E
  generalize (f ∈ specVolFields pre 0 s.volumes) = V
  tauto

theorem validateSvcs_keys (svcs : List ApplyServiceOptions) :
    ∀ (err : List (String × String)) (i : Nat) (f : String),
    (∃ r, (f, r) ∈ validateSvcs err i svcs) ↔
      ((∃ r, (f, r) ∈ err) ∨ f ∈ specSvcsFields i svcs) := by
  induction svcs with
  | nil => intro err i f; simp [validateSvcs, specSvcsFields]
  | cons s rest ih =>
      intro err i f
      simp only [validateSvcs, specSvcsFields, List.mem_append]
      rw [ih, validateSvc_keys]
      tauto

theorem validateReasons_keys (opts : ApplyProjectOptions) (f : String) :
    (∃ r, (f, r) ∈ validateReasons opts) ↔ f ∈ specViolatedFields opts := by
  simp only [validateReasons, specViolatedFields]
  by_cases hs : opts.services.isEmpty
  · simp only [hs, if_true]
    rw [key_mem_bput, key_mem_ite]
    simp only [List.mem_append, mem_ite_singleton]
    simp
    tauto
  · simp only [hs, Bool.false_eq_true, if_false]
    rw [validateSvcs_keys]
    rw [key_mem_ite]
    simp only [List.mem_append, mem_ite_singleton]
    simp
    try tauto

/-- C8 (amended: the volume-name rule is space-free, not whitespace-free —
the counterexample `validate_whitespace_claim_cex` shows a tab-holding
name passes).  Validation reports success exactly when every rule of the
amended list holds, and on failure its `{field → reason}` map carries an
entry for exactly the fields with a violated rule (when the two path
rules fire together on an empty mount path, the single entry keeps the
later reason); a failed validation makes `ApplyProject` return the
structured validation error with the state untouched and no runtime or
store action taken. -/
theorem validate_spec (opts : ApplyProjectOptions) :
    (validate opts = none ↔ specViolatedFields opts = []) ∧
    (∀ f, (∃ r, (f, r) ∈ validateReasons opts) ↔
      f ∈ specViolatedFields opts) ∧
    (∀ e st, validate opts = some e →
      ApplyProject st opts = (.error (.validation e), st, ⟨0, 0, 0, 0⟩)) := by
  refine ⟨?_, validateReasons_keys opts, ?_⟩
  · constructor
    · intro h
      have hempty : validateReasons opts = [] := by
        by_cases he : (validateReasons opts).isEmpty
        · simpa [List.isEmpty_iff] using he
        · simp [validate, he] at h
      rw [List.eq_nil_iff_forall_not_mem]
      intro f hf
      rcases (validateReasons_keys opts f).mpr hf with ⟨r, hr⟩
      rw [hempty] at hr
      simp at hr
    · intro h
      have hempty : validateReasons opts = [] := by
        rw [List.eq_nil_iff_forall_not_mem]
        rintro ⟨f, r⟩ hf
        have := (validateReasons_keys opts f).mp ⟨r, hf⟩
        rw [h] at this
        simp at this
      simp [validate, hempty]
  · intro e st h
    simp [ApplyProject, h]

/-- A request whose one volume has an empty mount path: both path rules
fire on the same field. -/
def invalidOpts : ApplyProjectOptions :=
  ⟨"p", [⟨"web", ⟨"docker", "nginx", []⟩, [], [], 0, [⟨"data", ""⟩], "",
         ⟨0⟩⟩]⟩

/-- C8 witness: the empty-mount-path request fails validation with the
one violated field, and `ApplyProject` returns the validation error with
the state unchanged. -/
theorem validate_spec_witness :
    specViolatedFields invalidOpts = ["services[0].volumes[0].path"] ∧
    validateReasons invalidOpts
      = [("services[0].volumes[0].path", "Volume path must be absolute")] ∧
    ApplyProject ⟨⟨[], [], [], []⟩, [], []⟩ invalidOpts
      = (.error (.validation
          [("services[0].volumes[0].path", "Volume path must be absolute")]),
         ⟨⟨[], [], [], []⟩, [], []⟩, ⟨0, 0, 0, 0⟩) :=
  ⟨by decide, by decide,
   (validate_spec invalidOpts).2.2
     [("services[0].volumes[0].path", "Volume path must be absolute")]
     ⟨⟨[], [], [], []⟩, [], []⟩ (by decide)⟩

/-- Written from the claim's words: a whitespace-free name holds no
whitespace character at all — not merely no space. -/
def specContainsWhitespace (s : String) : Bool :=
  s.data.any (fun c => c.isWhitespace)

/-- C8 counterexample.  A volume named with a tab between two letters is
not whitespace-free, so the claim's rule list is violated; yet the code's
check — `strings.Contains(volume.Name, " ")`, embedded as `containsSpace`
— sees no space, validation reports success, and the field map carries no
entry for the rule: the claim's "success exactly when all rules hold"
fails as stated. -/
theorem validate_whitespace_claim_cex :
    specContainsWhitespace "a\tb" = true ∧
    containsSpace "a\tb" = false ∧
    validate ⟨"p", [⟨"s", ⟨"docker", "img", []⟩, [], [], 0,
      [⟨"a\tb", "/data"⟩], "", ⟨0⟩⟩]⟩ = none := by
  refine ⟨by decide, by decide, by rfl⟩

/-! ## C1: idempotence of a repeated apply

The counterexample above needs duplicate service names; with pairwise
distinct names the spec's idempotence statement holds.  The development
below characterises every collaborator of `ApplyProject` in its success
case, carries container/route invariants through the per-service loop,
and shows the second run is a fixpoint. -/

theorem find?_append_some {α : Type} (p : α → Bool) (l₁ l₂ : List α)
    (a : α) (h : l₁.find? p = some a) : (l₁ ++ l₂).find? p = some a := by
  rw [List.find?_append, h]
  rfl

theorem find?_append_none {α : Type} (p : α → Bool) (l₁ l₂ : List α)
    (h : l₁.find? p = none) : (l₁ ++ l₂).find? p = l₂.find? p := by
  rw [List.find?_append, h]
  rfl

theorem find?_filter_of_imp {α : Type} (p q : α → Bool) (l : List α)
    (h : ∀ a, p a = true → q a = true) :
    (l.filter q).find? p = l.find? p := by
  induction l with
  | nil => simp
  | cons x xs ih =>
      cases hq : q x
      · have hp : p x = false := by
          cases hpx : p x
          · rfl
          · rw [h x hpx] at hq; exact absurd hq (by simp)
        simp [List.filter, hq, List.find?, hp, ih]
      · cases hp : p x <;> simp [List.filter, hq, List.find?, hp, ih]

theorem find?_map_of_pred {α : Type} (p : α → Bool) (f : α → α)
    (l : List α) (hp : ∀ a, p (f a) = p a) :
    (l.map f).find? p = (l.find? p).map f := by
  induction l with
  | nil => simp
  | cons x xs ih =>
      cases hx : p x
      · have : p (f x) = false := by rw [hp]; exact hx
        simp [List.find?, hx, this, ih]
      · have : p (f x) = true := by rw [hp]; exact hx
        simp [List.find?, hx, this]

theorem bget_foldl_bput {α : Type} (v : α) (ds : List String) :
    ∀ (b : List (String × α)) (d : String),
    bget (ds.foldl (fun acc k => bput acc k v) b) d
      = if d ∈ ds then some v else bget b d := by
  induction ds with
  | nil => intro b d; simp
  | cons k ks ih =>
      intro b d
      rw [List.foldl_cons, ih]
      by_cases hks : d ∈ ks
      · simp [hks]
      · by_cases hk : d = k
        · subst hk; simp [hks, bget_bput]
        · have : ¬d ∈ k :: ks := by
            simp [List.mem_cons, hk, hks]
          simp [hks, this, bget_bput_ne b k d v (fun he => hk he.symm)]

theorem foldl_bput_fix {α : Type} (v : α) (ds : List String) :
    ∀ (b : List (String × α)), (∀ d ∈ ds, bget b d = some v) →
    ds.foldl (fun acc k => bput acc k v) b = b := by
  induction ds with
  | nil => intro b _; rfl
  | cons k ks ih =>
      intro b h
      rw [List.foldl_cons, bput_same b k v (h k (List.mem_cons_self k ks))]
      exact ih b (fun d hd => h d (List.mem_cons_of_mem k hd))

theorem mem_foldl_bput {α : Type} (v : α) (ds : List String) :
    ∀ (b : List (String × α)) (p : String × α),
    p ∈ ds.foldl (fun acc k => bput acc k v) b →
    p ∈ b ∨ (p.1 ∈ ds ∧ p.2 = v) := by
  induction ds with
  | nil => intro b p hp; exact Or.inl hp
  | cons k ks ih =>
      intro b p hp
      rw [List.foldl_cons] at hp
      rcases ih (bput b k v) p hp with h | h
      · rcases mem_bput_elim b k v p h with h' | h'
        · exact Or.inl h'
        · right
          refine ⟨?_, ?_⟩
          · rw [h']; exact List.mem_cons_self k ks
          · rw [h']
      · exact Or.inr ⟨List.mem_cons_of_mem k h.1, h.2⟩

/-- The success case of the route registration: every listed domain was
unbound or bound to the same owner, and the store gained one entry per
domain. -/
theorem registerRoute_ok_elim (routes : RouteStore) (ing : Ingress)
    (routes' : RouteStore) (h : RegisterRoute routes ing = .ok routes') :
    (∀ d ∈ ing.domains, bget routes d = none ∨
      ∃ r, bget routes d = some r ∧ r.targetProject = ing.targetProject
        ∧ r.targetService = ing.targetService) ∧
    routes' = ing.domains.foldl (fun acc d => bput acc d ing) routes := by
  rw [RegisterRoute] at h
  split at h
  · rename_i hall
    refine ⟨?_, by injection h with h'; exact h'.symm⟩
    intro d hd
    have := List.all_eq_true.mp hall d hd
    cases hb : bget routes d with
    | none => exact Or.inl rfl
    | some r =>
        rw [hb] at this
        simp only [decide_eq_true_eq] at this
        exact Or.inr ⟨r, rfl, this.1, this.2⟩
  · exact absurd h (by simp)

/-- Registering an ingress every domain of which already stores exactly
that ingress succeeds and leaves the store unchanged. -/
theorem registerRoute_of_stored (routes : RouteStore) (ing : Ingress)
    (h : ∀ d ∈ ing.domains, bget routes d = some ing) :
    RegisterRoute routes ing = .ok routes := by
  rw [RegisterRoute, if_pos, foldl_bput_fix ing ing.domains routes h]
  refine List.all_eq_true.mpr (fun d hd => ?_)
  rw [h d hd]
  simp

/-- The success case of a container creation. -/
theorem createContainer_ok (d : DockerState) (svc : Service) (net : String)
    (c : DockerContainer) (d' : DockerState)
    (h : CreateContainer d svc net = (.ok c, d')) :
    c.name = svc.containerName ∧ c.configHash = svc.hash ∧
    c.projectLabel = svc.ingress.targetProject ∧
    d'.networks = d.networks ∧ d'.containers = d.containers ++ [c] ∧
    FindContainer d svc.containerName = none := by
  rw [CreateContainer] at h
  by_cases hport : svc.ingress.containerPort > 0
  · rw [if_pos hport] at h
    dsimp only [] at h
    by_cases hexp : GetAvailablePort (usedPorts (ensureVolumes d svc))
        PortStartRange PortEndRange = 0
    · rw [if_pos hexp] at h
      exact absurd h (by simp)
    · rw [if_neg hexp] at h
      by_cases hfind :
          (FindContainer (ensureVolumes d svc) svc.containerName).isSome = true
      · rw [if_pos hfind] at h
        exact absurd h (by simp)
      · rw [if_neg hfind] at h
        simp only [Prod.mk.injEq, Except.ok.injEq] at h
        obtain ⟨hc, hd⟩ := h
        subst hc; subst hd
        refine ⟨rfl, rfl, rfl, rfl, rfl, ?_⟩
        exact Option.not_isSome_iff_eq_none.mp hfind
  · rw [if_neg hport] at h
    by_cases hfind :
        (FindContainer (ensureVolumes d svc) svc.containerName).isSome = true
    · rw [if_pos hfind] at h
      exact absurd h (by simp)
    · rw [if_neg hfind] at h
      simp only [Prod.mk.injEq, Except.ok.injEq] at h
      obtain ⟨hc, hd⟩ := h
      subst hc; subst hd
      refine ⟨rfl, rfl, rfl, rfl, rfl, ?_⟩
      exact Option.not_isSome_iff_eq_none.mp hfind

/-- The success case of starting a container. -/
theorem startContainer_ok (d : DockerState) (id : String) (u : Unit)
    (d' : DockerState) (h : StartContainer d id = (.ok u, d')) :
    d'.networks = d.networks ∧
    d'.containers = d.containers.map
      (fun c => if c.name = id then { c with state := "running" } else c) := by
  rw [StartContainer] at h
  split at h
  · simp only [Prod.mk.injEq] at h
    rw [← h.2]
    exact ⟨rfl, rfl⟩
  · exact absurd h (by simp)

/-- The success case of removing a container. -/
theorem removeContainer_ok (d : DockerState) (id : String) (u : Unit)
    (d' : DockerState) (h : RemoveContainer d id = (.ok u, d')) :
    d'.networks = d.networks ∧
    d'.containers = d.containers.filter (fun c => ¬(c.name = id)) := by
  rw [RemoveContainer] at h
  split at h
  · simp only [Prod.mk.injEq] at h
    rw [← h.2]
    exact ⟨rfl, rfl⟩
  · exact absurd h (by simp)

/-- What `ApplyProject` guarantees about each service it materialises for
project `project`: its ingress targets the project under the service's own
name, its container name is the deterministic `<project>_<name>` and is on
the exclusion list `CL`, and its domains are all on the exclusion list
`DL`. -/
def GoodSvc (project : String) (DL CL : List String) (s : Service) : Prop :=
  s.ingress.targetProject = project ∧
  s.ingress.targetService = s.name ∧
  s.containerName = project ++ "_" ++ s.name ∧
  s.containerName ∈ CL ∧
  ∀ d ∈ s.ingress.domains, d ∈ DL

/-- Every container labelled with the project carries an excluded name:
exactly what makes `RemoveUnusedContainers` a no-op. -/
def ContInv (project : String) (CL : List String) (d : DockerState) : Prop :=
  ∀ c ∈ d.containers, c.projectLabel = project → c.name ∈ CL

/-- Every route of the project sits under an excluded domain: exactly what
makes `RemoveUnusedRoutes` a no-op. -/
def RouteInv (project : String) (DL : List String)
    (routes : RouteStore) : Prop :=
  ∀ p ∈ routes, (p : String × Ingress).2.targetProject = project →
    p.1 ∈ DL

theorem setEndpoint_setEndpoint (s : Service) (e₁ e₂ : String) :
    setEndpoint (setEndpoint s e₁) e₂ = setEndpoint s e₂ := rfl

theorem string_append_left_cancel (p a b : String)
    (h : p ++ a = p ++ b) : a = b := by
  have hd : p.data ++ a.data = p.data ++ b.data := by
    have := congrArg String.data h
    simpa using this
  have := List.append_cancel_left hd
  exact congrArg String.mk this

theorem forall2_mem_right {α β : Type} {R : α → β → Prop} :
    ∀ {l₁ : List α} {l₂ : List β}, List.Forall₂ R l₁ l₂ →
    ∀ b ∈ l₂, ∃ a ∈ l₁, R a b := by
  intro l₁ l₂ h
  induction h with
  | nil => intro b hb; simp at hb
  | cons hab _ ih =>
      intro b hb
      rcases List.mem_cons.mp hb with hb | hb
      · subst hb
        exact ⟨_, List.mem_cons_self _ _, hab⟩
      · rcases ih b hb with ⟨a, ha, hr⟩
        exact ⟨a, List.mem_cons_of_mem _ ha, hr⟩

theorem map_eq_of_forall2 {α β γ : Type} {R : α → β → Prop} (f : α → γ)
    (g : β → γ) (h : ∀ a b, R a b → g b = f a) :
    ∀ {l₁ : List α} {l₂ : List β}, List.Forall₂ R l₁ l₂ →
    l₂.map g = l₁.map f := by
  intro l₁ l₂ hf
  induction hf with
  | nil => rfl
  | cons hab _ ih => simp [ih, h _ _ hab]

theorem createNetwork_mem (d : DockerState) (n : String) :
    n ∈ ((CreateNetworkIfNotExists d n).2).networks ∧
    (CreateNetworkIfNotExists d n).1 = n := by
  rw [CreateNetworkIfNotExists]
  split
  · rename_i h; exact ⟨h, rfl⟩
  · simp

theorem createNetwork_noop (d : DockerState) (n : String)
    (h : n ∈ d.networks) : CreateNetworkIfNotExists d n = (n, d) := by
  rw [CreateNetworkIfNotExists, if_pos h]

theorem removeUnusedRoutes_noop (routes : RouteStore) (project : String)
    (DL : List String) (h : RouteInv project DL routes) :
    RemoveUnusedRoutes routes project DL = (0, routes) := by
  rw [RemoveUnusedRoutes]
  have hvic : routes.filter
      (fun p => p.2.targetProject = project ∧ p.1 ∉ DL) = [] := by
    refine List.filter_eq_nil_iff.mpr (fun p hp => ?_)
    simp only [decide_eq_true_eq, not_and, not_not]
    exact fun h1 => h p hp h1
  have hkept : routes.filter
      (fun p => ¬(p.2.targetProject = project ∧ p.1 ∉ DL)) = routes := by
    refine List.filter_eq_self.mpr (fun p hp => ?_)
    simp only [decide_eq_true_eq, not_and, not_not]
    exact fun h1 => h p hp h1
  rw [hvic, hkept]
  rfl

theorem removeUnusedContainers_noop (d : DockerState) (project : String)
    (CL : List String) (h : ContInv project CL d) :
    RemoveUnusedContainers d project CL = (0, d) := by
  rw [RemoveUnusedContainers]
  have hvic : d.containers.filter
      (fun c => c.projectLabel = project ∧ c.name ∉ CL) = [] := by
    refine List.filter_eq_nil_iff.mpr (fun c hc => ?_)
    simp only [decide_eq_true_eq, not_and, not_not]
    exact fun h1 => h c hc h1
  have hkept : d.containers.filter
      (fun c => ¬(c.projectLabel = project ∧ c.name ∉ CL)) = d.containers := by
    refine List.filter_eq_self.mpr (fun c hc => ?_)
    simp only [decide_eq_true_eq, not_and, not_not]
    exact fun h1 => h c hc h1
  rw [hvic, hkept]
  rfl

theorem findContainer_eq (d : DockerState) (n : String) :
    FindContainer d n = d.containers.find? (fun c => c.name = n) := rfl

theorem findContainer_name (d : DockerState) (n : String)
    (c : DockerContainer) (h : FindContainer d n = some c) : c.name = n := by
  have := List.find?_some h
  simpa using this

/-- What one successful service application guarantees: the service's
container exists under its deterministic name, runs, carries the service's
hash, and determined the applied record's endpoint; every domain of the
service stores the applied ingress; the projects bucket and the networks
are untouched; other container names and other domains are untouched; the
incoming store held no conflicting owner for any of the service's domains;
and the two prune invariants survive. -/
def ApplyPost (project : String) (DL CL : List String) (st : SysState)
    (s a : Service) (st' : SysState) : Prop :=
  (∃ c, FindContainer st'.docker s.containerName = some c ∧
    c.configHash = s.hash ∧ isRunning c = true ∧
    a = setEndpoint s (endpointOf c)) ∧
  (∀ d ∈ s.ingress.domains, bget st'.routes d = some a.ingress) ∧
  st'.projects = st.projects ∧
  st'.docker.networks = st.docker.networks ∧
  (∀ n, ¬n = s.containerName →
    FindContainer st'.docker n = FindContainer st.docker n) ∧
  (∀ d, d ∉ s.ingress.domains → bget st'.routes d = bget st.routes d) ∧
  (∀ d ∈ s.ingress.domains, bget st.routes d = none ∨
    ∃ r, bget st.routes d = some r ∧
      r.targetProject = s.ingress.targetProject ∧
      r.targetService = s.ingress.targetService) ∧
  ContInv project CL st'.docker ∧ RouteInv project DL st'.routes

/-- The success case of the shared creation tail. -/
theorem createAndRegister_ok (project : String) (DL CL : List String)
    (st : SysState) (tr : Trace) (s : Service) (net : String)
    (a : Service) (st' : SysState) (tr' : Trace)
    (h : createAndRegister st tr s net = (.ok a, st', tr'))
    (hB : ContInv project CL st.docker) (hC : RouteInv project DL st.routes)
    (hpl : s.ingress.targetProject = project) (hcl : s.containerName ∈ CL)
    (hdl : ∀ d ∈ s.ingress.domains, d ∈ DL) :
    ApplyPost project DL CL st s a st' := by
  unfold createAndRegister at h
  rcases hcc : CreateContainer st.docker s net with ⟨rc, d1⟩
  rw [hcc] at h
  cases rc with
  | error e => exact absurd h (by simp)
  | ok c =>
  dsimp only [] at h
  rcases hsc : StartContainer d1 c.name with ⟨rs, d2⟩
  rw [hsc] at h
  cases rs with
  | error e => exact absurd h (by simp)
  | ok u =>
  dsimp only [] at h
  rcases hrr : RegisterRoute st.routes (setEndpoint s (endpointOf c)).ingress
    with e | routes'
  · rw [hrr] at h
    exact absurd h (by simp)
  rw [hrr] at h
  dsimp only [] at h
  simp only [Prod.mk.injEq, Except.ok.injEq] at h
  obtain ⟨ha, hst, htr⟩ := h
  subst ha
  obtain ⟨hcn, hch, hcp, hnet1, hcont1, hnone⟩ :=
    createContainer_ok st.docker s net c d1 hcc
  obtain ⟨hnet2, hcont2⟩ := startContainer_ok d1 c.name u d2 hsc
  obtain ⟨hcheck, hroutes'⟩ := registerRoute_ok_elim st.routes
    (setEndpoint s (endpointOf c)).ingress routes' hrr
  have hnone' : st.docker.containers.find?
      (fun x => x.name = s.containerName) = none := hnone
  have hpname : ∀ x : DockerContainer, ∀ m : String,
      (decide ((if x.name = c.name then { x with state := "running" }
        else x).name = m)) = decide (x.name = m) := by
    intro x m
    by_cases hx : x.name = c.name <;> simp [hx]
  have hfind2 : ∀ m : String, FindContainer d2 m
      = ((st.docker.containers ++ [c]).find? (fun x => x.name = m)).map
        (fun x => if x.name = c.name then { x with state := "running" }
          else x) := by
    intro m
    rw [findContainer_eq, hcont2, hcont1]
    exact find?_map_of_pred _ _ _ (fun x => hpname x m)
  have hself : FindContainer d2 s.containerName
      = some { c with state := "running" } := by
    rw [hfind2, find?_append_none _ _ _ hnone']
    simp [List.find?, hcn]
  rw [← hst]
  refine ⟨⟨{ c with state := "running" }, hself, hch, rfl, ?_⟩,
    ?_, rfl, ?_, ?_, ?_, ?_, ?_, ?_⟩
  · rfl
  · intro d hd
    rw [hroutes', bget_foldl_bput,
      if_pos (show d ∈ (setEndpoint s (endpointOf c)).ingress.domains from hd)]
  · show d2.networks = st.docker.networks
    rw [hnet2, hnet1]
  · intro n hn
    rw [hfind2]
    cases hfo : st.docker.containers.find? (fun x => x.name = n) with
    | some x =>
        rw [find?_append_some _ _ _ _ hfo]
        have hxn : x.name = n := by simpa using List.find?_some hfo
        have : ¬x.name = c.name := by rw [hxn, hcn]; exact hn
        simp [findContainer_eq, this, hfo]
    | none =>
        rw [find?_append_none _ _ _ hfo]
        have hcne : (decide (c.name = n)) = false := by
          simp [hcn]
          intro he
          exact hn he.symm
        simp [List.find?, hcne, findContainer_eq, hfo]
  · intro d hd
    rw [hroutes', bget_foldl_bput,
      if_neg (show d ∉ (setEndpoint s (endpointOf c)).ingress.domains from hd)]
  · exact hcheck
  · intro x hx hlabel
    show x.name ∈ CL
    rw [hcont2, hcont1] at hx
    rcases List.mem_map.mp hx with ⟨y, hy, rfl⟩
    have hyname : (if y.name = c.name then { y with state := "running" }
        else y).name = y.name := by
      by_cases hyc : y.name = c.name <;> simp [hyc]
    have hylabel : (if y.name = c.name then { y with state := "running" }
        else y).projectLabel = y.projectLabel := by
      by_cases hyc : y.name = c.name <;> simp [hyc]
    rcases List.mem_append.mp hy with hy' | hy'
    · rw [hyname]
      exact hB y hy' (by rw [hylabel] at hlabel; exact hlabel)
    · have : y = c := by simpa using hy'
      subst this
      rw [hyname, hcn]
      exact hcl
  · intro p hp hproj
    rw [hroutes'] at hp
    rcases mem_foldl_bput _ _ _ _ hp with hp' | hp'
    · exact hC p hp' hproj
    · exact hdl p.1 hp'.1

/-- The success case of `ApplyService`. -/
theorem applyService_ok (project : String) (DL CL : List String)
    (st : SysState) (tr : Trace) (s : Service) (net : String)
    (a : Service) (st' : SysState) (tr' : Trace)
    (h : ApplyService st tr s net = (.ok a, st', tr'))
    (hB : ContInv project CL st.docker) (hC : RouteInv project DL st.routes)
    (hpl : s.ingress.targetProject = project) (hcl : s.containerName ∈ CL)
    (hdl : ∀ d ∈ s.ingress.domains, d ∈ DL) :
    ApplyPost project DL CL st s a st' := by
  unfold ApplyService at h
  rcases hfc : FindContainer st.docker s.containerName with _ | c₀
  · rw [hfc] at h
    dsimp only [] at h
    exact createAndRegister_ok project DL CL st tr s net a st' tr' h
      hB hC hpl hcl hdl
  rw [hfc] at h
  dsimp only [] at h
  have hc0n : c₀.name = s.containerName := findContainer_name _ _ _ hfc
  by_cases hh : c₀.configHash = s.hash
  · rw [if_neg (show ¬(c₀.configHash ≠ (setEndpoint s (endpointOf c₀)).hash)
      from fun hne => hne hh)] at h
    by_cases hrun : isRunning c₀ = true
    · rw [if_pos hrun] at h
      dsimp only [] at h
      rcases hrr : RegisterRoute st.routes
          (setEndpoint s (endpointOf c₀)).ingress with e | routes'
      · rw [hrr] at h
        exact absurd h (by simp)
      rw [hrr] at h
      dsimp only [] at h
      simp only [Prod.mk.injEq, Except.ok.injEq] at h
      obtain ⟨ha, hst, htr⟩ := h
      subst ha
      obtain ⟨hcheck, hroutes'⟩ := registerRoute_ok_elim st.routes
        (setEndpoint s (endpointOf c₀)).ingress routes' hrr
      rw [← hst]
      refine ⟨⟨c₀, hfc, hh, hrun, rfl⟩, ?_, rfl, rfl, ?_, ?_, hcheck, hB, ?_⟩
      · intro d hd
        rw [hroutes', bget_foldl_bput, if_pos
          (show d ∈ (setEndpoint s (endpointOf c₀)).ingress.domains from hd)]
      · intro n _
        rfl
      · intro d hd
        rw [hroutes', bget_foldl_bput, if_neg
          (show d ∉ (setEndpoint s (endpointOf c₀)).ingress.domains from hd)]
      · intro p hp hproj
        rw [hroutes'] at hp
        rcases mem_foldl_bput _ _ _ _ hp with hp' | hp'
        · exact hC p hp' hproj
        · exact hdl p.1 hp'.1
    · rw [if_neg hrun] at h
      rcases hsc : StartContainer st.docker c₀.name with ⟨rs, d2⟩
      rw [hsc] at h
      cases rs with
      | error e => exact absurd h (by simp)
      | ok u =>
      dsimp only [] at h
      rcases hrr : RegisterRoute st.routes
          (setEndpoint s (endpointOf c₀)).ingress with e | routes'
      · rw [hrr] at h
        exact absurd h (by simp)
      rw [hrr] at h
      dsimp only [] at h
      simp only [Prod.mk.injEq, Except.ok.injEq] at h
      obtain ⟨ha, hst, htr⟩ := h
      subst ha
      obtain ⟨hcheck, hroutes'⟩ := registerRoute_ok_elim st.routes
        (setEndpoint s (endpointOf c₀)).ingress routes' hrr
      obtain ⟨hnet2, hcont2⟩ := startContainer_ok st.docker c₀.name u d2 hsc
      have hpname : ∀ x : DockerContainer, ∀ m : String,
          (decide ((if x.name = c₀.name then { x with state := "running" }
            else x).name = m)) = decide (x.name = m) := by
        intro x m
        by_cases hx : x.name = c₀.name <;> simp [hx]
      have hfind2 : ∀ m : String, FindContainer d2 m
          = (st.docker.containers.find? (fun x => x.name = m)).map
            (fun x => if x.name = c₀.name then { x with state := "running" }
              else x) := by
        intro m
        rw [findContainer_eq, hcont2]
        exact find?_map_of_pred _ _ _ (fun x => hpname x m)
      have hself : FindContainer d2 s.containerName
          = some { c₀ with state := "running" } := by
        rw [hfind2]
        have : st.docker.containers.find?
            (fun x => x.name = s.containerName) = some c₀ := hfc
        rw [this]
        simp
      rw [← hst]
      refine ⟨⟨{ c₀ with state := "running" }, hself, hh, rfl, rfl⟩,
        ?_, rfl, hnet2, ?_, ?_, hcheck, ?_, ?_⟩
      · intro d hd
        rw [hroutes', bget_foldl_bput, if_pos
          (show d ∈ (setEndpoint s (endpointOf c₀)).ingress.domains from hd)]
      · intro n hn
        rw [hfind2]
        cases hfo : st.docker.containers.find? (fun x => x.name = n) with
        | some x =>
            have hxn : x.name = n := by simpa using List.find?_some hfo
            have : ¬x.name = c₀.name := by rw [hxn, hc0n]; exact hn
            simp [findContainer_eq, this, hfo]
        | none =>
            simp [findContainer_eq, hfo]
      · intro d hd
        rw [hroutes', bget_foldl_bput, if_neg
          (show d ∉ (setEndpoint s (endpointOf c₀)).ingress.domains from hd)]
      · intro x hx hlabel
        show x.name ∈ CL
        rw [hcont2] at hx
        rcases List.mem_map.mp hx with ⟨y, hy, rfl⟩
        have hyname : (if y.name = c₀.name then { y with state := "running" }
            else y).name = y.name := by
          by_cases hyc : y.name = c₀.name <;> simp [hyc]
        have hylabel : (if y.name = c₀.name
            then { y with state := "running" }
            else y).projectLabel = y.projectLabel := by
          by_cases hyc : y.name = c₀.name <;> simp [hyc]
        rw [hyname]
        exact hB y hy (by rw [hylabel] at hlabel; exact hlabel)
      · intro p hp hproj
        rw [hroutes'] at hp
        rcases mem_foldl_bput _ _ _ _ hp with hp' | hp'
        · exact hC p hp' hproj
        · exact hdl p.1 hp'.1
  · rw [if_pos (show c₀.configHash ≠ (setEndpoint s (endpointOf c₀)).hash
      from hh)] at h
    rcases hrm : RemoveContainer st.docker c₀.name with ⟨rr, d1⟩
    rw [hrm] at h
    cases rr with
    | error e => exact absurd h (by simp)
    | ok u =>
    dsimp only [] at h
    obtain ⟨hnet1, hcont1⟩ := removeContainer_ok st.docker c₀.name u d1 hrm
    have hB1 : ContInv project CL ({ st with docker := d1 } : SysState).docker := by
      intro x hx hlabel
      show x.name ∈ CL
      rw [hcont1] at hx
      exact hB x (List.mem_of_mem_filter hx) hlabel
    have post := createAndRegister_ok project DL CL { st with docker := d1 }
      { tr with containersRebuilt := tr.containersRebuilt + 1 }
      (setEndpoint s "") net a st' tr' h hB1 hC hpl hcl hdl
    obtain ⟨hfind, hroutes, hproj, hnet, hfr, hbr, hnc, hBf, hCf⟩ := post
    refine ⟨?_, hroutes, hproj, ?_, ?_, hbr, hnc, hBf, hCf⟩
    · rcases hfind with ⟨c, hc1, hc2, hc3, hc4⟩
      exact ⟨c, hc1, hc2, hc3, hc4⟩
    · rw [hnet]
      show d1.networks = st.docker.networks
      exact hnet1
    · intro n hn
      rw [hfr n hn]
      show FindContainer d1 n = FindContainer st.docker n
      rw [findContainer_eq, hcont1, findContainer_eq]
      refine find?_filter_of_imp _ _ _ (fun x hx => ?_)
      have hxn : x.name = n := by simpa using hx
      simp [hxn, hc0n]
      intro he
      exact hn he

/-- Frame facts of a successful `applyServices` run: the prune invariants
survive, the projects bucket and the networks are untouched, container
names outside the batch are untouched, and a stored route whose owner
service is not in the batch is untouched. -/
theorem applyServices_stable (project : String) (DL CL : List String)
    (net : String) :
    ∀ (svcs : List Service) (st : SysState) (tr : Trace)
      (as : List Service) (st' : SysState) (tr' : Trace),
    applyServices st tr net svcs = (.ok as, st', tr') →
    (∀ s ∈ svcs, GoodSvc project DL CL s) →
    ContInv project CL st.docker → RouteInv project DL st.routes →
    ContInv project CL st'.docker ∧ RouteInv project DL st'.routes ∧
    st'.projects = st.projects ∧ st'.docker.networks = st.docker.networks ∧
    (∀ n, n ∉ svcs.map (fun s => s.containerName) →
      FindContainer st'.docker n = FindContainer st.docker n) ∧
    (∀ d r, bget st.routes d = some r →
      (∀ s ∈ svcs, ¬r.targetService = s.ingress.targetService) →
      bget st'.routes d = some r) := by
  intro svcs
  induction svcs with
  | nil =>
      intro st tr as st' tr' h _ hB hC
      simp only [applyServices, Prod.mk.injEq, Except.ok.injEq] at h
      obtain ⟨_, hst, _⟩ := h
      subst hst
      exact ⟨hB, hC, rfl, rfl, fun n _ => rfl, fun d r hr _ => hr⟩
  | cons s rest ih =>
      intro st tr as st' tr' h hGood hB hC
      simp only [applyServices] at h
      rcases hA : ApplyService st tr s net with ⟨ra, st₁, tr₁⟩
      rw [hA] at h
      cases ra with
      | error e => exact absurd h (by simp)
      | ok a =>
      dsimp only [] at h
      rcases hAs : applyServices st₁ tr₁ net rest with ⟨rs, st₂, tr₂⟩
      rw [hAs] at h
      cases rs with
      | error e => exact absurd h (by simp)
      | ok as₂ =>
      dsimp only [] at h
      simp only [Prod.mk.injEq, Except.ok.injEq] at h
      obtain ⟨has, hst2, htr2⟩ := h
      subst hst2
      obtain ⟨hplh, htsh, hcnh, hclh, hdlh⟩ :=
        hGood s (List.mem_cons_self s rest)
      have hgrest : ∀ x ∈ rest, GoodSvc project DL CL x :=
        fun x hx => hGood x (List.mem_cons_of_mem s hx)
      obtain ⟨_, _, hproj1, hnet1, hfr1, hbr1, hnc1, hB1, hC1⟩ :=
        applyService_ok project DL CL st tr s net a st₁ tr₁ hA hB hC
          hplh hclh hdlh
      obtain ⟨hB2, hC2, hproj2, hnet2, hfr2, hrs2⟩ :=
        ih st₁ tr₁ as₂ st₂ tr₂ hAs hgrest hB1 hC1
      refine ⟨hB2, hC2, by rw [hproj2, hproj1], by rw [hnet2, hnet1],
        ?_, ?_⟩
      · intro n hn
        simp only [List.map_cons, List.mem_cons, not_or] at hn
        rw [hfr2 n hn.2, hfr1 n hn.1]
      · intro d r hr hts
        by_cases hd : d ∈ s.ingress.domains
        · rcases hnc1 d hd with hnone | ⟨r', hr', _, hts'⟩
          · rw [hr] at hnone
            exact absurd hnone (by simp)
          · rw [hr] at hr'
            injection hr' with hrr
            rw [← hrr] at hts'
            exact absurd hts' (hts s (List.mem_cons_self s rest))
        · have hb1 : bget st₁.routes d = some r := by
            rw [hbr1 d hd]
            exact hr
          exact hrs2 d r hb1 (fun x hx => hts x (List.mem_cons_of_mem s hx))

/-- The pairing postcondition of a successful `applyServices` run: each
requested service, paired with its applied record, has its running
container and its registered domains intact in the final state. -/
theorem applyServices_post (project : String) (DL CL : List String)
    (net : String) :
    ∀ (svcs : List Service) (st : SysState) (tr : Trace)
      (as : List Service) (st' : SysState) (tr' : Trace),
    applyServices st tr net svcs = (.ok as, st', tr') →
    (∀ s ∈ svcs, GoodSvc project DL CL s) →
    (svcs.map (fun s => s.name)).Nodup →
    ContInv project CL st.docker → RouteInv project DL st.routes →
    List.Forall₂ (fun s a =>
      (∃ c, FindContainer st'.docker s.containerName = some c ∧
        c.configHash = s.hash ∧ isRunning c = true ∧
        a = setEndpoint s (endpointOf c)) ∧
      (∀ d ∈ s.ingress.domains, bget st'.routes d = some a.ingress))
      svcs as := by
  intro svcs
  induction svcs with
  | nil =>
      intro st tr as st' tr' h _ _ _ _
      simp only [applyServices, Prod.mk.injEq, Except.ok.injEq] at h
      rw [← h.1]
      exact List.Forall₂.nil
  | cons s rest ih =>
      intro st tr as st' tr' h hGood hNodup hB hC
      simp only [applyServices] at h
      rcases hA : ApplyService st tr s net with ⟨ra, st₁, tr₁⟩
      rw [hA] at h
      cases ra with
      | error e => exact absurd h (by simp)
      | ok a =>
      dsimp only [] at h
      rcases hAs : applyServices st₁ tr₁ net rest with ⟨rs, st₂, tr₂⟩
      rw [hAs] at h
      cases rs with
      | error e => exact absurd h (by simp)
      | ok as₂ =>
      dsimp only [] at h
      simp only [Prod.mk.injEq, Except.ok.injEq] at h
      obtain ⟨has, hst2, htr2⟩ := h
      subst hst2
      rw [← has]
      obtain ⟨hplh, htsh, hcnh, hclh, hdlh⟩ :=
        hGood s (List.mem_cons_self s rest)
      have hgrest : ∀ x ∈ rest, GoodSvc project DL CL x :=
        fun x hx => hGood x (List.mem_cons_of_mem s hx)
      simp only [List.map_cons, List.nodup_cons] at hNodup
      obtain ⟨hsn, hrestnodup⟩ := hNodup
      obtain ⟨⟨c, hc1, hc2, hc3, hc4⟩, hroutes1, hproj1, hnet1, hfr1,
        hbr1, hnc1, hB1, hC1⟩ :=
        applyService_ok project DL CL st tr s net a st₁ tr₁ hA hB hC
          hplh hclh hdlh
      obtain ⟨hB2, hC2, hproj2, hnet2, hfr2, hrs2⟩ :=
        applyServices_stable project DL CL net rest st₁ tr₁ as₂ st₂ tr₂
          hAs hgrest hB1 hC1
      refine List.Forall₂.cons ⟨⟨c, ?_, hc2, hc3, hc4⟩, ?_⟩
        (ih st₁ tr₁ as₂ st₂ tr₂ hAs hgrest hrestnodup hB1 hC1)
      · rw [hfr2 s.containerName ?_, hc1]
        intro hmem
        rcases List.mem_map.mp hmem with ⟨x, hx, hxeq⟩
        obtain ⟨_, _, hxcn, _, _⟩ := hgrest x hx
        rw [hxcn, hcnh] at hxeq
        have := string_append_left_cancel _ _ _ hxeq
        exact hsn (List.mem_map.mpr ⟨x, hx, this⟩)
      · intro d hd
        refine hrs2 d a.ingress (hroutes1 d hd) (fun x hx => ?_)
        obtain ⟨_, hxts, _, _, _⟩ := hgrest x hx
        rw [hc4]
        show ¬s.ingress.targetService = x.ingress.targetService
        rw [htsh, hxts]
        intro he
        exact hsn (List.mem_map.mpr ⟨x, hx, he.symm⟩)

/-- A service whose running container and registered routes already match
is a fixpoint of `ApplyService`: nothing changes, nothing is counted. -/
theorem applyService_fix (st : SysState) (tr : Trace) (s a : Service)
    (net : String) (c : DockerContainer)
    (hf : FindContainer st.docker s.containerName = some c)
    (hh : c.configHash = s.hash) (hr : isRunning c = true)
    (ha : a = setEndpoint s (endpointOf c))
    (hroutes : ∀ d ∈ s.ingress.domains, bget st.routes d = some a.ingress) :
    ApplyService st tr s net = (.ok a, st, tr) := by
  subst ha
  unfold ApplyService
  rw [hf]
  dsimp only []
  rw [if_neg (show ¬(c.configHash ≠ (setEndpoint s (endpointOf c)).hash)
    from fun hne => hne hh)]
  rw [if_pos hr]
  dsimp only []
  rw [registerRoute_of_stored st.routes (setEndpoint s (endpointOf c)).ingress
    (fun d hd => hroutes d hd)]

/-- A batch every member of which is a fixpoint is a fixpoint of the
whole loop. -/
theorem applyServices_fix (net : String) (st : SysState) :
    ∀ (svcs as : List Service),
    List.Forall₂ (fun s a =>
      (∃ c, FindContainer st.docker s.containerName = some c ∧
        c.configHash = s.hash ∧ isRunning c = true ∧
        a = setEndpoint s (endpointOf c)) ∧
      (∀ d ∈ s.ingress.domains, bget st.routes d = some a.ingress))
      svcs as →
    ∀ (tr : Trace), applyServices st tr net svcs = (.ok as, st, tr) := by
  intro svcs as hf
  induction hf with
  | nil => intro tr; rfl
  | cons hsa hrest ih =>
      intro tr
      obtain ⟨⟨c, hc1, hc2, hc3, hc4⟩, hroutes⟩ := hsa
      simp only [applyServices]
      rw [applyService_fix st tr _ _ net c hc1 hc2 hc3 hc4 hroutes]
      dsimp only []
      rw [ih tr]

/-- The success case of one service materialisation. -/
theorem buildService_ok (project : String) (o : ApplyServiceOptions)
    (svc : Service) (h : buildService project o = .ok svc) :
    svc.name = o.name ∧ svc.containerName = project ++ "_" ++ o.name ∧
    svc.ingress.targetProject = project ∧
    svc.ingress.targetService = o.name ∧
    svc.ingress.domains = o.ingressDomains := by
  rw [buildService] at h
  dsimp only [] at h
  rw [GetImageFromSource] at h
  dsimp only [] at h
  split at h
  · exact absurd h (by simp)
  · injection h with h'
    subst h'
    exact ⟨rfl, rfl, rfl, rfl, rfl⟩

/-- The pairing postcondition of the materialisation loop. -/
theorem materialize_post (project : String) :
    ∀ (ss : List ApplyServiceOptions) (svcs : List Service),
    materialize project ss = .ok svcs →
    List.Forall₂ (fun (o : ApplyServiceOptions) (s : Service) =>
      s.name = o.name ∧ s.containerName = project ++ "_" ++ o.name ∧
      s.ingress.targetProject = project ∧
      s.ingress.targetService = o.name ∧
      s.ingress.domains = o.ingressDomains) ss svcs := by
  intro ss
  induction ss with
  | nil =>
      intro svcs h
      simp only [materialize] at h
      injection h with h'
      rw [← h']
      exact List.Forall₂.nil
  | cons o os ih =>
      intro svcs h
      simp only [materialize] at h
      rcases hb : buildService project o with e | svc
      · rw [hb] at h
        exact absurd h (by simp)
      rw [hb] at h
      dsimp only [] at h
      rcases hm : materialize project os with e | rest
      · rw [hm] at h
        exact absurd h (by simp)
      rw [hm] at h
      dsimp only [] at h
      injection h with h'
      rw [← h']
      exact List.Forall₂.cons (buildService_ok project o svc hb) (ih rest hm)

/-- Every materialised service is good for the exclusion lists
`ApplyProject` computes from the request. -/
theorem materialize_good (pn : String) (ss : List ApplyServiceOptions)
    (services : List Service) (hm : materialize pn ss = .ok services) :
    ∀ s ∈ services,
      GoodSvc pn (ss.flatMap (fun o => o.ingressDomains))
        (ss.map (fun o => pn ++ "_" ++ o.name)) s := by
  intro s hs
  rcases forall2_mem_right (materialize_post pn ss services hm) s hs
    with ⟨o, ho, hr⟩
  obtain ⟨h1, h2, h3, h4, h5⟩ := hr
  refine ⟨h3, by rw [h4, h1], by rw [h2, h1], ?_, ?_⟩
  · rw [h2]
    exact List.mem_map.mpr ⟨o, ho, rfl⟩
  · intro d hd
    rw [h5] at hd
    exact List.mem_flatMap.mpr ⟨o, ho, hd⟩

/-- The materialised services inherit the request's name list. -/
theorem materialize_names (pn : String) (ss : List ApplyServiceOptions)
    (services : List Service) (hm : materialize pn ss = .ok services) :
    services.map (fun s => s.name) = ss.map (fun o => o.name) :=
  map_eq_of_forall2 _ _ (fun o s hr => hr.1) (materialize_post pn ss services hm)

/-- C1 (amended: the request's service names must be pairwise distinct —
the counterexample `applyProject_idem_claim_cex` shows the unamended claim
fails for duplicate names).  When `ApplyProject` succeeds and nothing
external changes, applying the same request again succeeds with the
identical stored service list, the identical system state, and a trace of
zero removed routes, zero removed containers, zero rebuilds and zero
creations: every container is found under its deterministic name with a
matching hash and left in place. -/
theorem applyProject_idempotent (st : SysState) (opts : ApplyProjectOptions)
    (hnames : (opts.services.map (fun s => s.name)).Nodup)
    (svcs : List Service) (st₁ : SysState) (tr₁ : Trace)
    (h1 : ApplyProject st opts = (.ok svcs, st₁, tr₁)) :
    ApplyProject st₁ opts = (.ok svcs, st₁, ⟨0, 0, 0, 0⟩) := by
  unfold ApplyProject at h1 ⊢
  split at h1
  · exact absurd h1 (by simp)
  rename_i hv
  split at h1
  · exact absurd h1 (by simp)
  rename_i services hm
  dsimp only [] at h1 ⊢
  set DL := opts.services.flatMap (fun s => s.ingressDomains) with hDLdef
  set CL := opts.services.map (fun s => opts.projectName ++ "_" ++ s.name)
    with hCLdef
  rcases hE : CreateNetworkIfNotExists st.docker opts.projectName
    with ⟨net0, d1⟩
  rw [hE] at h1
  dsimp only [] at h1
  rcases hR : RemoveUnusedRoutes st.routes opts.projectName DL
    with ⟨rr, routes1⟩
  rw [hR] at h1
  dsimp only [] at h1
  rcases hCt : RemoveUnusedContainers d1 opts.projectName CL with ⟨rc, d2⟩
  rw [hCt] at h1
  dsimp only [] at h1
  rcases hA : applyServices ⟨d2, routes1, st.projects⟩ ⟨rr, rc, 0, 0⟩
      net0 services with ⟨ra, stx, trx⟩
  rw [hA] at h1
  cases ra with
  | error e =>
      dsimp only [] at h1
      exact absurd h1 (by simp)
  | ok applieds =>
  dsimp only [] at h1
  simp only [Prod.mk.injEq, Except.ok.injEq] at h1
  obtain ⟨hsvcs, hst1, htr1⟩ := h1
  subst hsvcs
  subst hst1
  dsimp only []
  obtain ⟨hmem1, hfst⟩ := createNetwork_mem st.docker opts.projectName
  rw [hE] at hmem1 hfst
  dsimp only [] at hmem1 hfst
  rw [RemoveUnusedRoutes] at hR
  simp only [Prod.mk.injEq] at hR
  obtain ⟨hrr, hroutes1⟩ := hR
  rw [RemoveUnusedContainers] at hCt
  simp only [Prod.mk.injEq] at hCt
  obtain ⟨hrc, hd2⟩ := hCt
  have hB0 : ContInv opts.projectName CL
      ((⟨d2, routes1, st.projects⟩ : SysState)).docker := by
    intro c hc hl
    show c.name ∈ CL
    rw [← hd2] at hc
    have hpc := List.of_mem_filter hc
    simp only [decide_eq_true_eq, not_and, not_not] at hpc
    exact hpc hl
  have hC0 : RouteInv opts.projectName DL
      ((⟨d2, routes1, st.projects⟩ : SysState)).routes := by
    intro p hp hl
    show p.1 ∈ DL
    rw [← hroutes1] at hp
    have hpp := List.of_mem_filter hp
    simp only [decide_eq_true_eq, not_and, not_not] at hpp
    exact hpp hl
  have hGoodAll := materialize_good opts.projectName opts.services
    services hm
  have hNodupS : (services.map (fun s => s.name)).Nodup := by
    rw [materialize_names opts.projectName opts.services services hm]
    exact hnames
  have hpost := applyServices_post opts.projectName DL CL net0 services
    ⟨d2, routes1, st.projects⟩ ⟨rr, rc, 0, 0⟩ applieds stx trx hA
    hGoodAll hNodupS hB0 hC0
  obtain ⟨hBx, hCx, hprojx, hnetx, _, _⟩ :=
    applyServices_stable opts.projectName DL CL net0 services
      ⟨d2, routes1, st.projects⟩ ⟨rr, rc, 0, 0⟩ applieds stx trx hA
      hGoodAll hB0 hC0
  have hmemx : opts.projectName ∈ stx.docker.networks := by
    rw [hnetx]
    show opts.projectName ∈ d2.networks
    rw [← hd2]
    exact hmem1
  rw [createNetwork_noop stx.docker opts.projectName hmemx]
  dsimp only []
  rw [removeUnusedRoutes_noop stx.routes opts.projectName DL hCx]
  dsimp only []
  rw [removeUnusedContainers_noop stx.docker opts.projectName CL hBx]
  dsimp only []
  have hfix := applyServices_fix opts.projectName
    (⟨stx.docker, stx.routes,
      bput stx.projects opts.projectName applieds⟩ : SysState)
    services applieds hpost ⟨0, 0, 0, 0⟩
  rw [hfix]
  dsimp only []
  rw [bput_same _ _ _ (bget_bput stx.projects opts.projectName applieds)]

/-- The C1 witness request: one service named `s` with a docker source. -/
def wOpts : ApplyProjectOptions :=
  ⟨"w", [⟨"s", ⟨"docker", "img", []⟩, [], [], 0, [], "", ⟨0⟩⟩]⟩

/-- The empty system state. -/
def wSt0 : SysState := ⟨⟨[], [], [], []⟩, [], []⟩

/-- The service record the witness request materialises and applies. -/
def wSvc : Service :=
  ⟨"s", "7309f85cf227db0f1cc3f462c1f9814b", "w_s", "img",
   ⟨"docker", "img", []⟩, [], ⟨0⟩, ⟨[], 0, "", "s", "w", ""⟩, []⟩

/-- The system state after the witness request's first apply. -/
def wSt1 : SysState :=
  ⟨⟨["w"], [⟨"w_s", "running", none, "7309f85cf227db0f1cc3f462c1f9814b",
     "w", "w", 128000000⟩], [], []⟩, [], [("w", [wSvc])]⟩

/-- C1 witness: the concrete single-service request applies from the empty
state creating one container, and the theorem replays it as a strict
no-op — same services, same state, all four trace counters zero. -/
theorem applyProject_idempotent_witness :
    ((wOpts.services.map (fun s => s.name)).Nodup ∧
      ApplyProject wSt0 wOpts = (.ok [wSvc], wSt1, ⟨0, 0, 0, 1⟩)) ∧
    ApplyProject wSt1 wOpts = (.ok [wSvc], wSt1, ⟨0, 0, 0, 0⟩) :=
  ⟨⟨by decide, by rfl⟩,
   applyProject_idempotent wSt0 wOpts (by decide) [wSvc] wSt1 ⟨0, 0, 0, 1⟩
     (by rfl)⟩

end Conter
